import Mathlib

/-!
Verification development for the SecondBrain backend
(`backend/app/services`: ingestion pipeline, chunking, embeddings and
hybrid retrieval).  Python code is shallowly embedded: pure fragments
become Lean functions over `String`, `List`, `Int`, `Nat` and `ℚ`;
the stateful ingestion pipeline is embedded as an explicit event trace;
the SQL queries of the retrieval service are embedded as list
transformations over an explicit relational store.
-/

namespace SecondBrain

/-! ### Python string primitives

`str.strip`, `str.split` (no argument: whitespace runs) and friends,
as used throughout the services. -/

/-- Python whitespace class (`\s`, `str.strip`, `str.split`) restricted to
the ASCII range used by the queries. -/
def pyIsSpace (c : Char) : Bool :=
  c = ' ' || c = '\t' || c = '\n' || c = '\r' || c = '\x0b' || c = '\x0c'

/-- `str.strip()` on a character list. -/
def pyStripList (l : List Char) : List Char :=
  ((l.dropWhile pyIsSpace).reverse.dropWhile pyIsSpace).reverse

/-- Python `str.strip()`. -/
def pyStrip (s : String) : String :=
  ⟨pyStripList s.data⟩

/-- Python `str.split()` with no argument: maximal runs of whitespace
separate the tokens, and no empty token is produced. -/
def pySplit (s : String) : List String :=
  (s.split pyIsSpace).filter (fun t => t ≠ "")

/-- Python `a or b` for `a : Optional[str]`: `b` when `a` is `None` or
the empty string (both falsy), `a` otherwise. -/
def pyOrStr (a : Option String) (b : String) : String :=
  match a with
  | some s => if s = "" then b else s
  | none => b

/-! ### SHA-256 (`hashlib.sha256(...).hexdigest()`)

A byte-level implementation over `List Nat`, used by the ingestion
pipeline for `content_hash`. -/

/-- Rotate a 32-bit word right by `n`. -/
def rotr32 (n x : Nat) : Nat :=
  ((x >>> n) ||| (x <<< (32 - n))) % 4294967296

/-- The 64 SHA-256 round constants (FIPS 180-4, written in decimal). -/
def sha256K : List Nat :=
  [1116352408, 1899447441, 3049323471, 3921009573, 961987163, 1508970993,
   2453635748, 2870763221, 3624381080, 310598401, 607225278, 1426881987,
   1925078388, 2162078206, 2614888103, 3248222580, 3835390401, 4022224774,
   264347078, 604807628, 770255983, 1249150122, 1555081692, 1996064986,
   2554220882, 2821834349, 2952996808, 3210313671, 3336571891, 3584528711,
   113926993, 338241895, 666307205, 773529912, 1294757372, 1396182291,
   1695183700, 1986661051, 2177026350, 2456956037, 2730485921, 2820302411,
   3259730800, 3345764771, 3516065817, 3600352804, 4094571909, 275423344,
   430227734, 506948616, 659060556, 883997877, 958139571, 1322822218,
   1537002063, 1747873779, 1955562222, 2024104815, 2227730452, 2361852424,
   2428436474, 2756734187, 3204031479, 3329325298]

/-- The initial SHA-256 hash state (FIPS 180-4, written in decimal). -/
def sha256H0 : List Nat :=
  [1779033703, 3144134277, 1013904242, 2773480762,
   1359893119, 2600822924, 528734635, 1541459225]

/-- Big-endian 8-byte encoding of a length in bits. -/
def be64 (n : Nat) : List Nat :=
  [(n >>> 56) % 256, (n >>> 48) % 256, (n >>> 40) % 256, (n >>> 32) % 256,
   (n >>> 24) % 256, (n >>> 16) % 256, (n >>> 8) % 256, n % 256]

/-- SHA-256 padding: a `0x80` byte, zero bytes to 56 mod 64, then the
bit length as a big-endian 64-bit integer. -/
def sha256Pad (msg : List Nat) : List Nat :=
  msg ++ [0x80] ++ List.replicate ((119 - msg.length % 64) % 64) 0 ++ be64 (8 * msg.length)

/-- Group bytes into big-endian 32-bit words. -/
def bytesToWords : List Nat → List Nat
  | b0 :: b1 :: b2 :: b3 :: rest =>
      (((b0 * 256 + b1) * 256 + b2) * 256 + b3) :: bytesToWords rest
  | _ => []

/-- Message-schedule small sigma functions. -/
def ssig0 (x : Nat) : Nat := (rotr32 7 x) ^^^ (rotr32 18 x) ^^^ (x >>> 3)

def ssig1 (x : Nat) : Nat := (rotr32 17 x) ^^^ (rotr32 19 x) ^^^ (x >>> 10)

/-- Extend a 16-word block by `k` schedule words. -/
def sha256Extend (ws : List Nat) : Nat → List Nat
  | 0 => ws
  | k + 1 =>
      let prev := sha256Extend ws k
      let n := prev.length
      prev ++ [(ssig1 (prev.getD (n - 2) 0) + prev.getD (n - 7) 0 +
                ssig0 (prev.getD (n - 15) 0) + prev.getD (n - 16) 0) % 4294967296]

/-- One SHA-256 round: state `[a,b,c,d,e,f,g,h]`, input `(wᵢ, kᵢ)`. -/
def sha256Round (st : List Nat) (wk : Nat × Nat) : List Nat :=
  match st with
  | [a, b, c, d, e, f, g, h] =>
      let S1 := (rotr32 6 e) ^^^ (rotr32 11 e) ^^^ (rotr32 25 e)
      let ch := (e &&& f) ^^^ ((4294967295 - e) &&& g)
      let temp1 := (h + S1 + ch + wk.2 + wk.1) % 4294967296
      let S0 := (rotr32 2 a) ^^^ (rotr32 13 a) ^^^ (rotr32 22 a)
      let maj := (a &&& b) ^^^ (a &&& c) ^^^ (b &&& c)
      let temp2 := (S0 + maj) % 4294967296
      [(temp1 + temp2) % 4294967296, a, b, c, (d + temp1) % 4294967296, e, f, g]
  | other => other

/-- Compress one 16-word block into the running hash state. -/
def sha256Compress (hs : List Nat) (block : List Nat) : List Nat :=
  let w := sha256Extend block 48
  let fin := (w.zip sha256K).foldl sha256Round hs
  (hs.zip fin).map (fun p => (p.1 + p.2) % 4294967296)

/-- Fold the compression function over all 16-word blocks. -/
def sha256Blocks (hs : List Nat) : List Nat → List Nat
  | w0 :: w1 :: w2 :: w3 :: w4 :: w5 :: w6 :: w7 ::
    w8 :: w9 :: w10 :: w11 :: w12 :: w13 :: w14 :: w15 :: rest =>
      sha256Blocks
        (sha256Compress hs [w0, w1, w2, w3, w4, w5, w6, w7,
                            w8, w9, w10, w11, w12, w13, w14, w15]) rest
  | _ => hs

/-- Big-endian bytes of a 32-bit word. -/
def wordBytes (w : Nat) : List Nat :=
  [(w >>> 24) % 256, (w >>> 16) % 256, (w >>> 8) % 256, w % 256]

/-- SHA-256 digest of a byte string, as 32 bytes. -/
def sha256Bytes (msg : List Nat) : List Nat :=
  (sha256Blocks sha256H0 (bytesToWords (sha256Pad msg))).flatMap wordBytes

/-- A lowercase hexadecimal digit. -/
def hexDigit (n : Nat) : Char :=
  if n < 10 then Char.ofNat (48 + n) else Char.ofNat (87 + n)

/-- `hashlib.sha256(msg).hexdigest()`: the digest as 64 lowercase hex
characters. -/
def sha256hex (msg : List Nat) : String :=
  ⟨(sha256Bytes msg).flatMap (fun b => [hexDigit (b / 16), hexDigit (b % 16)])⟩

/-- UTF-8 encoding of one code point (`str.encode()`). -/
def utf8Char (c : Char) : List Nat :=
  let n := c.toNat
  if n < 128 then [n]
  else if n < 2048 then [192 + n / 64, 128 + n % 64]
  else if n < 65536 then [224 + n / 4096, 128 + (n / 64) % 64, 128 + n % 64]
  else [240 + n / 262144, 128 + (n / 4096) % 64, 128 + (n / 64) % 64, 128 + n % 64]

/-- Python `str.encode()` (UTF-8). -/
def utf8Encode (s : String) : List Nat :=
  s.data.flatMap utf8Char

/-! ### Data model (`app/models/models.py`) -/

/-- `SourceType` from `models.py`. -/
inductive SourceType where
  | audio | pdf | markdown | web | text | image
deriving DecidableEq, Repr

/-- `JobStatus` from `models.py`. -/
inductive JobStatus where
  | queued | running | completed | failed
deriving DecidableEq, Repr

/-- `JobStage` from `models.py`. -/
inductive JobStage where
  | received | extracted | chunked | embedded | indexed
deriving DecidableEq, Repr

/-! ### Ingestion pipeline: document construction
(`app/services/ingestion/pipeline.py`)

The `Document(...)` constructor calls of `ingest_text`, `ingest_url`,
`_ingest_audio` and `_ingest_document` are embedded as pure record
builders; the fields below are the ones those calls populate. -/

/-- The fields of `Document` populated by the pipeline constructors. -/
structure PyDocument where
  user_id : Nat
  source_type : SourceType
  title : String
  source_uri : Option String
  original_filename : Option String
  content_text : Option String
  content_hash : String
  status : JobStatus
deriving DecidableEq, Repr

/-- The `title=` expression of `ingest_text` (pipeline.py line 44),
with Python's conditional-expression grouping:
`(title or text[:100].strip() + "...") if len(text) > 100 else text.strip()`. -/
def ingest_text_title (title : Option String) (text : String) : String :=
  if text.length > 100 then pyOrStr title (pyStrip (text.take 100) ++ "...")
  else pyStrip text

/-- The `Document` built by `IngestionPipeline.ingest_text`:
`content_hash = sha256(text.encode())`, `status = RUNNING`. -/
def ingest_text_doc (user_id : Nat) (text : String) (title : Option String) :
    PyDocument :=
  { user_id := user_id
    source_type := SourceType.text
    title := ingest_text_title title text
    source_uri := none
    original_filename := none
    content_text := some text
    content_hash := sha256hex (utf8Encode text)
    status := JobStatus.running }

/-- The result of `web_processor.fetch_and_extract` (`web.py`,
dataclass `WebContent`): the extracted text, not the fetched bytes. -/
structure WebContent where
  text : String
  title : Option String
  url : String
deriving DecidableEq, Repr

/-- The `Document` built by `IngestionPipeline.ingest_url`:
`content_hash = sha256(web_content.text.encode())` — the hash input is
the extracted text, the raw response bytes are never hashed. -/
def ingest_url_doc (user_id : Nat) (url : String) (web_content : WebContent) :
    PyDocument :=
  { user_id := user_id
    source_type := SourceType.web
    title := pyOrStr web_content.title url
    source_uri := some url
    original_filename := none
    content_text := some web_content.text
    content_hash := sha256hex (utf8Encode web_content.text)
    status := JobStatus.running }

/-- The `Document` built by `IngestionPipeline._ingest_audio`:
`content_hash = sha256(content)` where `content` is the raw file bytes. -/
def ingest_audio_doc (user_id : Nat) (content : List Nat)
    (original_filename stored_path : String) : PyDocument :=
  { user_id := user_id
    source_type := SourceType.audio
    title := original_filename
    source_uri := some stored_path
    original_filename := some original_filename
    content_text := none
    content_hash := sha256hex content
    status := JobStatus.running }

/-- The `Document` built by `IngestionPipeline._ingest_document`:
`content_hash = sha256(content)` where `content` is the raw file bytes,
and `content_text` is the extracted text. -/
def ingest_document_doc (user_id : Nat) (content : List Nat)
    (extracted_text : String) (extracted_title : Option String)
    (original_filename stored_path : String) (source_type : SourceType) :
    PyDocument :=
  { user_id := user_id
    source_type := source_type
    title := pyOrStr extracted_title original_filename
    source_uri := some stored_path
    original_filename := some original_filename
    content_text := some extracted_text
    content_hash := sha256hex content
    status := JobStatus.running }

/-! ### `datetime` arithmetic

`datetime` values are embedded as a day number (days since 1970-01-01,
which was a Thursday) plus the microsecond of day.  All operations used
by `TemporalParser` are covered: `timedelta` subtraction, `weekday()`,
`replace(...)`, and the civil-calendar conversions behind
`reference.year`, `reference.month` and `datetime(year, month, 1)`. -/

/-- A naive `datetime`: days since 1970-01-01 plus microsecond of day. -/
structure PyDateTime where
  days : Int
  usec : Nat
deriving DecidableEq, Repr

/-- `datetime.weekday()`: Monday is 0.  Day 0 (1970-01-01) was a
Thursday, hence the offset 3. -/
def pyWeekday (t : PyDateTime) : Int :=
  (t.days + 3) % 7

/-- `t - timedelta(days=n)`. -/
def subDays (t : PyDateTime) (n : Int) : PyDateTime :=
  ⟨t.days - n, t.usec⟩

/-- `t - timedelta(microseconds=m)` (used for `- timedelta(seconds=1)`). -/
def subMicros (t : PyDateTime) (m : Int) : PyDateTime :=
  let total : Int := t.days * 86400000000 + (t.usec : Int) - m
  ⟨Int.ediv total 86400000000, (Int.emod total 86400000000).toNat⟩

/-- Civil-from-days: `(year, month, day)` of a day number
(standard proleptic-Gregorian algorithm). -/
def civilOfDays (z : Int) : Int × Nat × Nat :=
  let z' := z + 719468
  let era := Int.tdiv (if z' ≥ 0 then z' else z' - 146096) 146097
  let doe := z' - era * 146097
  let yoe := Int.tdiv (doe - Int.tdiv doe 1460 + Int.tdiv doe 36524 - Int.tdiv doe 146096) 365
  let y := yoe + era * 400
  let doy := doe - (365 * yoe + Int.tdiv yoe 4 - Int.tdiv yoe 100)
  let mp := Int.tdiv (5 * doy + 2) 153
  let d := doy - Int.tdiv (153 * mp + 2) 5 + 1
  let m := if mp < 10 then mp + 3 else mp - 9
  (if m ≤ 2 then y + 1 else y, m.toNat, d.toNat)

/-- Days-from-civil: the day number of `(year, month, day)`. -/
def daysOfCivil (y : Int) (m d : Nat) : Int :=
  let y' : Int := if m ≤ 2 then y - 1 else y
  let era := Int.tdiv (if y' ≥ 0 then y' else y' - 399) 400
  let yoe := y' - era * 400
  let mp : Int := (m : Int) + (if m > 2 then -3 else 9)
  let doy := Int.tdiv (153 * mp + 2) 5 + (d : Int) - 1
  let doe := yoe * 365 + Int.tdiv yoe 4 - Int.tdiv yoe 100 + doy
  era * 146097 + doe - 719468

/-- `datetime(year, month, 1)` and friends: midnight of a civil date. -/
def midnightOf (y : Int) (m d : Nat) : PyDateTime :=
  ⟨daysOfCivil y m d, 0⟩

/-! ### A matching engine for the temporal patterns
(`TemporalParser`, `app/services/retrieval.py`)

The eight regular expressions of `parse_time_expression` all have the
shape `\b w₁ \s+ w₂ … \b` where each wᵢ is a literal word, an
alternation of literal words, or `(\d+)`; matching is case-insensitive
(`re.IGNORECASE`).  The engine below implements exactly that pattern
class: leftmost search (`re.search`) and global replacement
(`re.sub`, which removes every non-overlapping occurrence). -/

/-- A pattern token: an alternation of literal (lowercase) words, the
flag marking the capturing group, or the capturing `(\d+)`. -/
inductive RTok where
  | lits (alts : List (List Char)) (capture : Bool)
  | digits
deriving Repr

/-- `\w` (restricted to the ASCII range of the patterns). -/
def isWordChar (c : Char) : Bool :=
  c.isAlpha || c.isDigit || c = '_'

/-- `\b` looking right: the next character, if any, is a non-word
character. -/
def boundaryOk (l : List Char) : Bool :=
  match l with
  | [] => true
  | c :: _ => !isWordChar c

/-- Strip one case-insensitive literal word, returning the rest. -/
def matchWord : List Char → List Char → Option (List Char)
  | [], l => some l
  | _ :: _, [] => none
  | c :: ws, x :: xs => if x.toLower = c then matchWord ws xs else none

/-- `\s+`: one or more whitespace characters (greedy). -/
def matchSpaces1 : List Char → Option (List Char)
  | [] => none
  | x :: xs => if pyIsSpace x then some (xs.dropWhile pyIsSpace) else none

/-- `(\d+)`: one or more digits (greedy), returning them and the rest. -/
def matchDigits1 (l : List Char) : Option (List Char × List Char) :=
  match l with
  | [] => none
  | x :: xs =>
      if x.isDigit then some ((x :: xs).takeWhile Char.isDigit, (x :: xs).dropWhile Char.isDigit)
      else none

/-- Match a token sequence at the head of the input (tokens separated
by `\s+`, a `\b` after the last token; `needSpace` is true when a
`\s+` separator is still owed before the next token).  Returns the rest
of the input and the text of the capturing group, if any. -/
def matchToks : Bool → List RTok → List Char → Option (List Char × Option (List Char))
  | _, [], l => if boundaryOk l then some (l, none) else none
  | needSpace, t :: ts, l =>
      let sep := if needSpace then matchSpaces1 l else some l
      match sep with
      | none => none
      | some l2 =>
          match t with
          | RTok.digits =>
              match matchDigits1 l2 with
              | none => none
              | some (ds, rest) => (matchToks true ts rest).map (fun r => (r.1, some ds))
          | RTok.lits alts capture =>
              alts.findSome? (fun w =>
                (matchWord w l2).bind (fun rest =>
                  (matchToks true ts rest).map
                    (fun r => (r.1, if capture then some w else r.2))))

/-- `re.search` for a token pattern: leftmost match, returning the
captured group if any.  `prevIsWord` tracks the `\b` to the left. -/
def reSearchAux (pat : List RTok) : Bool → List Char → Option (Option (List Char))
  | _, [] => none
  | prevIsWord, c :: cs =>
      if prevIsWord then reSearchAux pat (isWordChar c) cs
      else
        match matchToks false pat (c :: cs) with
        | some (_, cap) => some cap
        | none => reSearchAux pat (isWordChar c) cs

/-- `re.search(pattern, query, re.IGNORECASE)`, reduced to the data the
parser uses: `some capture` on a hit, `none` otherwise. -/
def reSearch (pat : List RTok) (s : String) : Option (Option (List Char)) :=
  reSearchAux pat false s.data

/-- One step of `re.sub`: fuelled scan (the fuel is the input length,
which bounds the number of steps; each step consumes at least one
character).  After a removed match the scan resumes just past it, the
character to the left being the last matched (word) character. -/
def reSubAux (pat : List RTok) : Nat → Bool → List Char → List Char
  | 0, _, l => l
  | _ + 1, _, [] => []
  | fuel + 1, prevIsWord, c :: cs =>
      if prevIsWord then c :: reSubAux pat fuel (isWordChar c) cs
      else
        match matchToks false pat (c :: cs) with
        | some (rest, _) => reSubAux pat fuel true rest
        | none => c :: reSubAux pat fuel (isWordChar c) cs

/-- `re.sub(pattern, "", query, flags=re.IGNORECASE)`: every
non-overlapping occurrence is removed. -/
def reSub (pat : List RTok) (s : String) : String :=
  ⟨reSubAux pat s.data.length false s.data⟩

/-! ### `TemporalParser.parse_time_expression`
(`app/services/retrieval.py`, lines 18-115) -/

/-- A single literal word token. -/
def lw (s : String) : RTok := RTok.lits [s.data] false

/-- A capturing alternation of literal words. -/
def altCap (ss : List String) : RTok := RTok.lits (ss.map String.data) true

/-- The weekday names of the `last <weekday>` pattern, in source order. -/
def weekdayNames : List String :=
  ["monday", "tuesday", "wednesday", "thursday", "friday", "saturday", "sunday"]

/-- The month names of the `in <month>` pattern, in source order. -/
def monthNames : List String :=
  ["january", "february", "march", "april", "may", "june", "july",
   "august", "september", "october", "november", "december"]

/-- `int(m.group(1))` for a captured digit string. -/
def digitsToNat (l : List Char) : Nat :=
  l.foldl (fun acc c => acc * 10 + (c.toNat - 48)) 0

/-- `TemporalParser._get_last_weekday`: whole day `[00:00,
23:59:59.999999]` of the most recent past occurrence of the weekday;
a full week back when today is that weekday. -/
def get_last_weekday (weekday_name : List Char) (reference : PyDateTime) :
    PyDateTime × PyDateTime :=
  let weekdays : List (List Char × Int) :=
    (weekdayNames.zip [0, 1, 2, 3, 4, 5, 6]).map (fun p => (p.1.data, p.2))
  let target_weekday := ((weekdays.find? (fun p => p.1 = weekday_name)).map Prod.snd).getD 0
  let days_back := (pyWeekday reference - target_weekday) % 7
  let days_back := if days_back = 0 then 7 else days_back
  let target_date := subDays reference days_back
  (⟨target_date.days, 0⟩, ⟨target_date.days, 86399999999⟩)

/-- `TemporalParser._get_month_range`: the whole calendar month, in the
current year, or the previous year when the month is in the future. -/
def get_month_range (month_name : List Char) (reference : PyDateTime) :
    PyDateTime × PyDateTime :=
  let months : List (List Char × Nat) :=
    (monthNames.zip [1, 2, 3, 4, 5, 6, 7, 8, 9, 10, 11, 12]).map (fun p => (p.1.data, p.2))
  let target_month := ((months.find? (fun p => p.1 = month_name)).map Prod.snd).getD 1
  let ref_civil := civilOfDays reference.days
  let year := if (target_month : Int) > (ref_civil.2.1 : Int) then ref_civil.1 - 1 else ref_civil.1
  let start := midnightOf year target_month 1
  let stop :=
    if target_month = 12 then subMicros (midnightOf (year + 1) 1 1) 1000000
    else subMicros (midnightOf year (target_month + 1) 1) 1000000
  (start, stop)

/-- The `(pattern, handler)` list of `parse_time_expression`, in source
order.  Handlers take the capture of group 1 (when the pattern has one)
and the reference time. -/
def temporalPatterns :
    List (List RTok × (Option (List Char) → PyDateTime → PyDateTime × PyDateTime)) :=
  [ ([lw "last", altCap weekdayNames],
     fun cap ref => get_last_weekday (cap.getD []) ref),
    ([lw "yesterday"],
     fun _ ref => (subDays ref 1, ref)),
    ([lw "last", lw "week"],
     fun _ ref => (subDays ref 7, ref)),
    ([lw "last", lw "month"],
     fun _ ref => (subDays ref 30, ref)),
    ([lw "last", RTok.digits, RTok.lits ["days".data, "day".data] false],
     fun cap ref => (subDays ref (digitsToNat (cap.getD []) : Int), ref)),
    ([lw "in", altCap monthNames],
     fun cap ref => get_month_range (cap.getD []) ref),
    ([lw "this", lw "week"],
     fun _ ref => (subDays ref (pyWeekday ref), ref)),
    ([lw "today"],
     fun _ ref => (⟨ref.days, ref.usec % 1000000⟩, ref)) ]

/-- The pattern loop of `parse_time_expression`: the first pattern with
a search hit wins; its spans are removed (`re.sub`) and the result
stripped.  The handlers always return a (truthy) pair, so the
`if time_range:` guard of the source never fails. -/
def temporalLoop
    (pats : List (List RTok × (Option (List Char) → PyDateTime → PyDateTime × PyDateTime)))
    (query : String) (reference : PyDateTime) :
    Option (String × PyDateTime × PyDateTime) :=
  match pats with
  | [] => none
  | (pat, handler) :: rest =>
      match reSearch pat query with
      | some cap =>
          let tr := handler cap reference
          some (pyStrip (reSub pat query), tr.1, tr.2)
      | none => temporalLoop rest query reference

/-- `TemporalParser.parse_time_expression(query, reference_time)`:
`(cleaned_query, time_start, time_end)`. -/
def parse_time_expression (query : String) (reference : PyDateTime) :
    String × Option PyDateTime × Option PyDateTime :=
  match temporalLoop temporalPatterns query reference with
  | some (cleaned, t0, t1) => (cleaned, some t0, some t1)
  | none => (query, none, none)

/-! ### The relational store and `RetrievalService`
(`app/services/retrieval.py`, lines 118-356)

The database rows visible to the two subqueries are embedded as lists;
the SQL queries become join/filter/sort/limit list transformations.
The cosine-distance and `ts_rank`/`tsquery` primitives of the database
are parameters of the search functions (the claims under study do not
depend on their values). -/

/-- `datetime` comparison `a <= b`. -/
def pyLe (a b : PyDateTime) : Bool :=
  a.days < b.days || (a.days = b.days && a.usec ≤ b.usec)

/-- A row of the `chunks` table (the columns retrieval reads). -/
structure SChunk where
  id : Nat
  document_id : Nat
  user_id : Nat
  text : String
  page_start : Option Nat
  page_end : Option Nat
  time_start : Option PyDateTime
  time_end : Option PyDateTime
deriving DecidableEq, Repr

/-- A row of the `documents` table (the columns retrieval reads,
plus `status`). -/
structure SDocument where
  id : Nat
  user_id : Nat
  title : String
  source_uri : Option String
  source_type : SourceType
  created_at : PyDateTime
  status : JobStatus
deriving DecidableEq, Repr

/-- A row of the `chunk_embeddings` table. -/
structure SEmbedding where
  chunk_id : Nat
  embedding : List ℚ
deriving DecidableEq, Repr

/-- The database state the retrieval queries run against. -/
structure Store where
  documents : List SDocument
  chunks : List SChunk
  embeddings : List SEmbedding
deriving DecidableEq, Repr

/-- `RetrievedChunk` (`app/models/schemas.py`): note it carries no
`user_id` column. -/
structure RetrievedChunk where
  chunk_id : Nat
  document_id : Nat
  document_title : String
  source_uri : Option String
  source_type : SourceType
  text : String
  score : ℚ
  page_start : Option Nat
  page_end : Option Nat
  time_start : Option PyDateTime
  time_end : Option PyDateTime
deriving DecidableEq, Repr

/-- The temporal `WHERE` clause shared by both subqueries: chunks with
a time anchor overlapping the interval, or chunks without one whose
document `created_at` falls inside it.  A SQL comparison against a NULL
`time_end` is not true. -/
def temporalFilter (time_start time_end : Option PyDateTime)
    (c : SChunk) (d : SDocument) : Bool :=
  match time_start, time_end with
  | some ts, some te =>
      (match c.time_start, c.time_end with
       | some cts, some cte => pyLe cts te && pyLe ts cte
       | some _, none => false
       | none, _ => false) ||
      (c.time_start = none && pyLe ts d.created_at && pyLe d.created_at te)
  | _, _ => true

/-- The join `Chunk ⋈ ChunkEmbedding ⋈ Document` of `_vector_search`. -/
def joinRowsV (st : Store) : List (SChunk × SDocument × SEmbedding) :=
  st.chunks.flatMap (fun c =>
    (st.embeddings.filter (fun e => e.chunk_id = c.id)).flatMap (fun e =>
      (st.documents.filter (fun d => d.id = c.document_id)).map (fun d => (c, d, e))))

/-- The join `Chunk ⋈ Document` of `_fulltext_search`. -/
def joinRowsT (st : Store) : List (SChunk × SDocument) :=
  st.chunks.flatMap (fun c =>
    (st.documents.filter (fun d => d.id = c.document_id)).map (fun d => (c, d)))

/-- Build the `RetrievedChunk` of `_vector_search` from a joined row. -/
def mkRetrievedV (query_embedding : List ℚ) (dist : List ℚ → List ℚ → ℚ)
    (row : SChunk × SDocument × SEmbedding) : RetrievedChunk × ℚ :=
  let score := 1 - dist row.2.2.embedding query_embedding
  ({ chunk_id := row.1.id
     document_id := row.2.1.id
     document_title := row.2.1.title
     source_uri := row.2.1.source_uri
     source_type := row.2.1.source_type
     text := row.1.text
     score := score
     page_start := row.1.page_start
     page_end := row.1.page_end
     time_start := row.1.time_start
     time_end := row.1.time_end }, score)

/-- `RetrievalService._vector_search`: join, filter by `user_id` and
the temporal window (no `Document.status` filter), order by cosine
distance ascending, limit, and convert distance to `1 - distance`. -/
def vector_search (st : Store) (user_id : Nat) (query_embedding : List ℚ)
    (limit : Nat) (time_start time_end : Option PyDateTime)
    (dist : List ℚ → List ℚ → ℚ) : List (RetrievedChunk × ℚ) :=
  let rows := (joinRowsV st).filter
    (fun row => row.1.user_id = user_id && temporalFilter time_start time_end row.1 row.2.1)
  let sorted := rows.insertionSort
    (fun a b => dist a.2.2.embedding query_embedding ≤ dist b.2.2.embedding query_embedding)
  (sorted.take limit).map (mkRetrievedV query_embedding dist)

/-- Build the `RetrievedChunk` of `_fulltext_search` from a joined row:
the rank is scaled by 10 and capped at 1. -/
def mkRetrievedT (search_terms : String) (tsRank : String → String → ℚ)
    (row : SChunk × SDocument) : RetrievedChunk × ℚ :=
  let score := min (tsRank row.1.text search_terms * 10) 1
  ({ chunk_id := row.1.id
     document_id := row.2.id
     document_title := row.2.title
     source_uri := row.2.source_uri
     source_type := row.2.source_type
     text := row.1.text
     score := score
     page_start := row.1.page_start
     page_end := row.1.page_end
     time_start := row.1.time_start
     time_end := row.1.time_end }, score)

/-- `RetrievalService._fulltext_search`: the query terms are joined by
`" & "`; rows are filtered by `user_id`, the tsquery match and the
temporal window (again no `Document.status` filter), ordered by rank
descending and limited.  `tsOk` models the `try/except` around the
query: when the database rejects the tsquery the search returns `[]`. -/
def fulltext_search (st : Store) (user_id : Nat) (query : String)
    (limit : Nat) (time_start time_end : Option PyDateTime)
    (tsMatch : String → String → Bool) (tsRank : String → String → ℚ)
    (tsOk : String → Bool) : List (RetrievedChunk × ℚ) :=
  let search_terms := String.intercalate " & " (pySplit query)
  if !tsOk search_terms then []
  else
    let rows := (joinRowsT st).filter
      (fun row => row.1.user_id = user_id && tsMatch row.1.text search_terms &&
        temporalFilter time_start time_end row.1 row.2)
    let sorted := rows.insertionSort
      (fun a b => tsRank b.1.text search_terms ≤ tsRank a.1.text search_terms)
    (sorted.take limit).map (mkRetrievedT search_terms tsRank)

/-- One entry of the `chunk_scores` dict of `_merge_results`. -/
structure MergeEntry where
  chunk : RetrievedChunk
  vector_score : ℚ
  text_score : ℚ
deriving DecidableEq, Repr

/-- `chunk_scores[chunk.chunk_id] = {...}`: in-place overwrite when the
key exists (Python dicts keep the original insertion position),
insertion at the end otherwise. -/
def dictSet (k : Nat) (v : MergeEntry) :
    List (Nat × MergeEntry) → List (Nat × MergeEntry)
  | [] => [(k, v)]
  | (k', v') :: t => if k' = k then (k, v) :: t else (k', v') :: dictSet k v t

/-- The second loop of `_merge_results`: update `text_score` in place
when the chunk id is present, insert a fresh entry (with
`vector_score = 0`) otherwise. -/
def dictSetText (c : RetrievedChunk) (s : ℚ) :
    List (Nat × MergeEntry) → List (Nat × MergeEntry)
  | [] => [(c.chunk_id, ⟨c, 0, s⟩)]
  | (k', v') :: t =>
      if k' = c.chunk_id then (k', { v' with text_score := s }) :: t
      else (k', v') :: dictSetText c s t

/-- `RetrievalService._merge_results`: key by `chunk_id`, combine
`vector_score * vector_weight + text_score * text_weight` (a missing
side contributes 0), and sort by combined score descending. -/
def merge_results (vector_results text_results : List (RetrievedChunk × ℚ))
    (vector_weight text_weight : ℚ) : List RetrievedChunk :=
  let d1 := vector_results.foldl
    (fun d cs => dictSet cs.1.chunk_id ⟨cs.1, cs.2, 0⟩ d) []
  let d2 := text_results.foldl (fun d cs => dictSetText cs.1 cs.2 d) d1
  let results := d2.map (fun kv =>
    { kv.2.chunk with
        score := kv.2.vector_score * vector_weight + kv.2.text_score * text_weight })
  results.insertionSort (fun a b => b.score ≤ a.score)

/-- `RetrievalService.retrieve`: parse the temporal expression, embed
the residual (`embedFn`), run both subqueries with `top_k * 3` limits,
merge, and return the first `top_k`. -/
def retrieve (st : Store) (user_id : Nat) (query : String) (reference : PyDateTime)
    (top_k : Nat) (vector_weight text_weight : ℚ)
    (embedFn : String → List ℚ) (dist : List ℚ → List ℚ → ℚ)
    (tsMatch : String → String → Bool) (tsRank : String → String → ℚ)
    (tsOk : String → Bool) : List RetrievedChunk :=
  let parsed := parse_time_expression query reference
  let query_embedding := embedFn parsed.1
  let vector_results :=
    vector_search st user_id query_embedding (top_k * 3) parsed.2.1 parsed.2.2 dist
  let text_results :=
    fulltext_search st user_id parsed.1 (top_k * 3) parsed.2.1 parsed.2.2 tsMatch tsRank tsOk
  (merge_results vector_results text_results vector_weight text_weight).take top_k

/-! ### `EmbeddingService.embed_texts` (`app/services/embeddings.py`)

The provider response is a list of `(index, embedding)` items; the
service sorts them by index and projects the embeddings.  The empty
input returns `[]` before any provider call. -/

/-- `EmbeddingService.embed_texts`. -/
def embed_texts {E : Type} (texts : List String)
    (provider : List String → List (Nat × E)) : List E :=
  if texts = [] then []
  else ((provider texts).insertionSort (fun a b => a.1 ≤ b.1)).map Prod.snd

/-! ### `ChunkingService.chunk_audio_segments` (`app/services/chunking.py`)

The token counter (`tiktoken`) is a parameter. -/

/-- `ChunkData` (`chunking.py`), with the fields `chunk_audio_segments`
populates. -/
structure ChunkData where
  text : String
  chunk_index : Nat
  char_start : Nat
  char_end : Nat
  token_count : Nat
  time_start_ms : Option Int
  time_end_ms : Option Int
deriving DecidableEq, Repr

/-- One transcript segment `{"text", "start_ms", "end_ms"}`; the
`dict.get` defaults (`0` and `start_ms`) are applied in the loop. -/
structure AudioSegment where
  text : String
  start_ms : Option Int
  end_ms : Option Int
deriving DecidableEq, Repr

/-- The loop state of `chunk_audio_segments`. -/
structure AudioAcc where
  chunks : List ChunkData
  current_texts : List String
  current_start_ms : Option Int
  current_end_ms : Option Int
  chunk_index : Nat
  char_offset : Nat
deriving DecidableEq, Repr

/-- One iteration of the segment loop: blank segments (empty after
`strip`) are skipped; otherwise the segment text and times are
accumulated, and a chunk is emitted once the accumulated duration
reaches the target. -/
def audio_step (count_tokens : String → Nat) (target_duration_ms : Int)
    (acc : AudioAcc) (segment : AudioSegment) : AudioAcc :=
  let seg_text := pyStrip segment.text
  let seg_start := segment.start_ms.getD 0
  let seg_end := segment.end_ms.getD seg_start
  if seg_text = "" then acc
  else
    let current_start := (acc.current_start_ms).getD seg_start
    let texts := acc.current_texts ++ [seg_text]
    let current_end := seg_end
    if current_end - current_start ≥ target_duration_ms then
      let chunk_text := String.intercalate " " texts
      { chunks := acc.chunks ++
          [{ text := chunk_text
             chunk_index := acc.chunk_index
             char_start := acc.char_offset
             char_end := acc.char_offset + chunk_text.length
             token_count := count_tokens chunk_text
             time_start_ms := some current_start
             time_end_ms := some current_end }]
        current_texts := []
        current_start_ms := none
        current_end_ms := none
        chunk_index := acc.chunk_index + 1
        char_offset := acc.char_offset + chunk_text.length + 1 }
    else
      { acc with
          current_texts := texts
          current_start_ms := some current_start
          current_end_ms := some current_end }

/-- `ChunkingService.chunk_audio_segments`: fold the loop, then emit
the residual chunk when texts remain. -/
def chunk_audio_segments (count_tokens : String → Nat)
    (segments : List AudioSegment) (target_duration_ms : Int) : List ChunkData :=
  if segments = [] then []
  else
    let acc := segments.foldl (audio_step count_tokens target_duration_ms)
      ⟨[], [], none, none, 0, 0⟩
    if acc.current_texts = [] then acc.chunks
    else
      let chunk_text := String.intercalate " " acc.current_texts
      acc.chunks ++
        [{ text := chunk_text
           chunk_index := acc.chunk_index
           char_start := acc.char_offset
           char_end := acc.char_offset + chunk_text.length
           token_count := count_tokens chunk_text
           time_start_ms := acc.current_start_ms
           time_end_ms := acc.current_end_ms }]

/-! ### The ingestion pipeline as an event trace
(`app/services/ingestion/pipeline.py`)

Each `await`-sequenced statement of the happy path becomes one event.
`flush` sends pending SQL inside the open transaction; only `commit`
makes anything durable. -/

/-- The observable events of one ingestion request. -/
inductive PipeEvent where
  | add_document
  | add_job (initial : JobStage)
  | set_stage (stage : JobStage)
  | flush
  | work_extract
  | work_chunk
  | work_embed
  | set_job_status (s : JobStatus)
  | set_doc_status (s : JobStatus)
  | commit
deriving DecidableEq, Repr, Inhabited

/-- The shared tail of every pipeline: stage updates (each a
`set_stage` + `flush`, from `_update_job_stage`) are interleaved with
the stage work; the single `commit` comes last. -/
def pipelineTail : List PipeEvent :=
  [PipeEvent.set_stage JobStage.chunked, PipeEvent.flush,
   PipeEvent.work_chunk,
   PipeEvent.set_stage JobStage.embedded, PipeEvent.flush,
   PipeEvent.work_embed,
   PipeEvent.set_stage JobStage.indexed, PipeEvent.flush,
   PipeEvent.set_job_status JobStatus.completed,
   PipeEvent.set_doc_status JobStatus.completed,
   PipeEvent.commit]

/-- `IngestionPipeline.ingest_text`, happy path. -/
def ingest_text_events : List PipeEvent :=
  [PipeEvent.add_document, PipeEvent.flush,
   PipeEvent.add_job JobStage.received, PipeEvent.flush] ++ pipelineTail

/-- `IngestionPipeline.ingest_url`, happy path: extraction happens
before the document and job exist; the job starts at `EXTRACTED`. -/
def ingest_url_events : List PipeEvent :=
  [PipeEvent.work_extract,
   PipeEvent.add_document, PipeEvent.flush,
   PipeEvent.add_job JobStage.extracted, PipeEvent.flush] ++ pipelineTail

/-- `IngestionPipeline._ingest_audio`, happy path: transcription runs
after the job is moved to `EXTRACTED`. -/
def ingest_audio_events : List PipeEvent :=
  [PipeEvent.add_document, PipeEvent.flush,
   PipeEvent.add_job JobStage.received, PipeEvent.flush,
   PipeEvent.set_stage JobStage.extracted, PipeEvent.flush,
   PipeEvent.work_extract] ++ pipelineTail

/-- `IngestionPipeline._ingest_document`, happy path: extraction
precedes document creation; the job starts at `EXTRACTED`. -/
def ingest_document_events : List PipeEvent :=
  [PipeEvent.work_extract,
   PipeEvent.add_document, PipeEvent.flush,
   PipeEvent.add_job JobStage.extracted, PipeEvent.flush] ++ pipelineTail

/-- Stage-work events. -/
def isWorkEvent : PipeEvent → Bool
  | PipeEvent.work_extract => true
  | PipeEvent.work_chunk => true
  | PipeEvent.work_embed => true
  | _ => false

/-- The claim "each stage transition is durably persisted after that
stage's work completes and before work for the next stage begins",
read on a trace: (a) the `CHUNKED` and `EMBEDDED` transitions are
recorded only after the corresponding work, and (b) between two
consecutive work events a `commit` occurs. -/
def stageDurabilityClaim (tr : List PipeEvent) : Prop :=
  (∀ i < tr.length, ∀ j < tr.length,
      tr.getD i PipeEvent.flush = PipeEvent.set_stage JobStage.chunked →
      tr.getD j PipeEvent.flush = PipeEvent.work_chunk → j < i) ∧
  (∀ i < tr.length, ∀ j < tr.length,
      tr.getD i PipeEvent.flush = PipeEvent.set_stage JobStage.embedded →
      tr.getD j PipeEvent.flush = PipeEvent.work_embed → j < i) ∧
  (∀ i < tr.length, ∀ j < tr.length, i < j →
      isWorkEvent (tr.getD i PipeEvent.flush) = true →
      isWorkEvent (tr.getD j PipeEvent.flush) = true →
      ∃ k < j, i < k ∧ tr.getD k PipeEvent.flush = PipeEvent.commit)

/-- Is an event a `set_stage`? -/
def isSetStage : PipeEvent → Bool
  | PipeEvent.set_stage _ => true
  | _ => false

/-- What the code actually does, read on a trace: every `set_stage` is
immediately followed by a `flush` (the transition is sent inside the
open transaction before the stage work starts), `work_chunk` and
`work_embed` are immediately preceded by their `set_stage` + `flush`,
and the only `commit` is the final event of the trace. -/
def stageFlushDiscipline (tr : List PipeEvent) : Prop :=
  (∀ i < tr.length, isSetStage (tr.getD i PipeEvent.flush) = true →
      tr.getD (i + 1) PipeEvent.flush = PipeEvent.flush) ∧
  (∀ j < tr.length, tr.getD j PipeEvent.flush = PipeEvent.work_chunk →
      2 ≤ j ∧ tr.getD (j - 2) PipeEvent.flush = PipeEvent.set_stage JobStage.chunked ∧
      tr.getD (j - 1) PipeEvent.flush = PipeEvent.flush) ∧
  (∀ j < tr.length, tr.getD j PipeEvent.flush = PipeEvent.work_embed →
      2 ≤ j ∧ tr.getD (j - 2) PipeEvent.flush = PipeEvent.set_stage JobStage.embedded ∧
      tr.getD (j - 1) PipeEvent.flush = PipeEvent.flush) ∧
  (tr.count PipeEvent.commit = 1 ∧
   tr.getD (tr.length - 1) PipeEvent.flush = PipeEvent.commit)

instance (tr : List PipeEvent) : Decidable (stageFlushDiscipline tr) := by
  unfold stageFlushDiscipline
  exact inferInstance

/-! ### Comparison definitions taken from the spec's words -/

/-- Modelled from the spec: "Monday 00:00 of current ISO week" — the
claimed start of the "this week" interval. -/
def monday_midnight_of_week (reference : PyDateTime) : PyDateTime :=
  ⟨reference.days - pyWeekday reference, 0⟩

/-- Modelled from the spec: removal of exactly the one matched span
("exactly that one matched span is removed to form the residual"). -/
def removeFirstSpanAux (pat : List RTok) : Bool → List Char → List Char
  | _, [] => []
  | prevIsWord, c :: cs =>
      if prevIsWord then c :: removeFirstSpanAux pat (isWordChar c) cs
      else
        match matchToks false pat (c :: cs) with
        | some (rest, _) => rest
        | none => c :: removeFirstSpanAux pat (isWordChar c) cs

/-- Modelled from the spec: the residual query obtained by removing
only the first matched span, then stripping. -/
def spec_residual_one_span (pat : List RTok) (s : String) : String :=
  pyStrip ⟨removeFirstSpanAux pat false s.data⟩

/-! ### Auxiliary definitions for the retrieval theorems -/

/-- The score a result list assigns to a chunk id (`0` when absent):
the "dense score" / "sparse score" of the fusion formula. -/
def lookupScore (results : List (RetrievedChunk × ℚ)) (id : Nat) : ℚ :=
  match results.find? (fun p => p.1.chunk_id == id) with
  | some p => p.2
  | none => 0

/-- Rewrite one document's status. -/
def withStatus (f : SDocument → JobStatus) (d : SDocument) : SDocument :=
  { d with status := f d }

/-- Rewrite every document status of a store (used to state that the
retrieval queries never read `Document.status`). -/
def setDocStatuses (f : SDocument → JobStatus) (st : Store) : Store :=
  { st with documents := st.documents.map (withStatus f) }

/-- Status rewriting lifted to a joined dense-search row. -/
def rowWithStatusV (f : SDocument → JobStatus)
    (row : SChunk × SDocument × SEmbedding) : SChunk × SDocument × SEmbedding :=
  (row.1, withStatus f row.2.1, row.2.2)

/-- Status rewriting lifted to a joined sparse-search row. -/
def rowWithStatusT (f : SDocument → JobStatus)
    (row : SChunk × SDocument) : SChunk × SDocument :=
  (row.1, withStatus f row.2)

/-- The loop invariant of `_merge_results`: after processing `processed`
text results on top of the vector dict, every entry is keyed by its
chunk id, carries the dense score of its id, and carries the sparse
score its id has among `processed`; all vector ids are present and the
keys are distinct. -/
def MergeInv (vr processed : List (RetrievedChunk × ℚ))
    (d : List (Nat × MergeEntry)) : Prop :=
  (∀ kv ∈ d, kv.1 = kv.2.chunk.chunk_id ∧
      kv.2.vector_score = lookupScore vr kv.1 ∧
      kv.2.text_score = lookupScore processed kv.1) ∧
  (∀ p ∈ vr, p.1.chunk_id ∈ d.map Prod.fst) ∧
  (d.map Prod.fst).Nodup

/-! ### Concrete fixtures used by witnesses and counterexamples -/

/-- A document whose ingestion failed. -/
def exFailedDoc : SDocument :=
  { id := 1, user_id := 7, title := "t", source_uri := none,
    source_type := SourceType.text, created_at := ⟨0, 0⟩,
    status := JobStatus.failed }

/-- A chunk of the failed document, present in the store together with
its embedding. -/
def exChunk : SChunk :=
  { id := 10, document_id := 1, user_id := 7, text := "hello",
    page_start := none, page_end := none, time_start := none, time_end := none }

/-- The store holding the failed document with an indexed chunk. -/
def exStore : Store :=
  ⟨[exFailedDoc], [exChunk], [{ chunk_id := 10, embedding := [1] }]⟩

/-- A constant cosine-distance oracle for concrete examples. -/
def exDist : List ℚ → List ℚ → ℚ := fun _ _ => 0

/-- A tsquery oracle that matches everything. -/
def exMatch : String → String → Bool := fun _ _ => true

/-- A constant `ts_rank` oracle. -/
def exRank : String → String → ℚ := fun _ _ => (1 : ℚ) / 20

/-- A tsquery validity oracle that accepts everything. -/
def exOk : String → Bool := fun _ => true

/-- A constant embedding oracle. -/
def exEmbed : String → List ℚ := fun _ => [1]

/-- The result `retrieve` produces on `exStore` for user 7 with weights
`0.7`/`0.3`: dense score `1`, sparse score `0.5`, fused `0.85`. -/
def exRetrieved : RetrievedChunk :=
  { chunk_id := 10, document_id := 1, document_title := "t",
    source_uri := none, source_type := SourceType.text, text := "hello",
    score := (17 : ℚ) / 20, page_start := none, page_end := none,
    time_start := none, time_end := none }

/-- Two distinct retrieved chunks for the fusion witness. -/
def exChunkA : RetrievedChunk :=
  { chunk_id := 21, document_id := 2, document_title := "a",
    source_uri := none, source_type := SourceType.text, text := "aa",
    score := (1 : ℚ) / 2, page_start := none, page_end := none,
    time_start := none, time_end := none }

/-- Second retrieved chunk for the fusion witness. -/
def exChunkB : RetrievedChunk :=
  { chunk_id := 22, document_id := 2, document_title := "b",
    source_uri := none, source_type := SourceType.text, text := "bb",
    score := (1 : ℚ) / 4, page_start := none, page_end := none,
    time_start := none, time_end := none }

/-- Keys of provider items are compared by `≤` when sorting
(`embed_texts`). -/
instance instKeyLeTotal {E : Type} : IsTotal (Nat × E) (fun a b => a.1 ≤ b.1) :=
  ⟨fun a b => Nat.le_total a.1 b.1⟩

instance instKeyLeTrans {E : Type} : IsTrans (Nat × E) (fun a b => a.1 ≤ b.1) :=
  ⟨fun _ _ _ h1 h2 => Nat.le_trans h1 h2⟩

instance instKeyLtAntisymm {E : Type} : IsAntisymm (Nat × E) (fun a b => a.1 < b.1) :=
  ⟨fun _ _ h1 h2 => absurd h1 (Nat.lt_asymm h2)⟩

/-- Sorting by fused score descending (`_merge_results`) is total and
transitive. -/
instance instScoreDescTotal : IsTotal RetrievedChunk (fun a b => b.score ≤ a.score) :=
  ⟨fun a b => le_total b.score a.score⟩

instance instScoreDescTrans : IsTrans RetrievedChunk (fun a b => b.score ≤ a.score) :=
  ⟨fun _ _ _ h1 h2 => le_trans h2 h1⟩

/-! ## Theorems -/

/-- C4: the claim reads "the Document's title equals the provided title
when one is given"; because the conditional expression of
`ingest_text` groups as `(title or …) if len(text) > 100 else
text.strip()`, a provided title is ignored whenever the text has at
most 100 characters: ingesting `"hi"` with title `"My Title"` yields
title `"hi"`. -/
theorem ingest_text_title_ignores_provided_title_for_short_text :
    (ingest_text_doc 1 "hi" (some "My Title")).title = "hi" ∧
    ("hi" : String) ≠ "My Title" :=
  ⟨rfl, by decide⟩

/-- C5 (counterexample): for a URL source whose raw bytes are the HTML
`"<p>Hi</p>"` and whose extracted text is `"Hi"`, the stored
`content_hash` is the SHA-256 of the extracted text and differs from
the SHA-256 of the raw bytes of the source, contradicting the claim. -/
theorem ingest_url_content_hash_not_raw_bytes :
    (ingest_url_doc 1 "http://e" ⟨"Hi", none, "http://e"⟩).content_hash =
      sha256hex (utf8Encode "Hi") ∧
    (ingest_url_doc 1 "http://e" ⟨"Hi", none, "http://e"⟩).content_hash ≠
      sha256hex (utf8Encode "<p>Hi</p>") :=
  ⟨rfl, by decide⟩

/-- C5 (amended): `content_hash` is the SHA-256 of the post-extraction
text for plain-text sources, of the raw bytes for audio and document
file sources, and — unlike the claim — of the extracted text (not the
raw fetched bytes) for URL sources. -/
theorem content_hash_input_selection :
    (∀ (u : Nat) (text : String) (title : Option String),
        (ingest_text_doc u text title).content_hash = sha256hex (utf8Encode text)) ∧
    (∀ (u : Nat) (url : String) (wc : WebContent),
        (ingest_url_doc u url wc).content_hash = sha256hex (utf8Encode wc.text)) ∧
    (∀ (u : Nat) (content : List Nat) (fn sp : String),
        (ingest_audio_doc u content fn sp).content_hash = sha256hex content) ∧
    (∀ (u : Nat) (content : List Nat) (et : String) (etl : Option String)
        (fn sp : String) (sty : SourceType),
        (ingest_document_doc u content et etl fn sp sty).content_hash =
          sha256hex content) :=
  ⟨fun _ _ _ => rfl, fun _ _ _ => rfl, fun _ _ _ _ => rfl,
   fun _ _ _ _ _ _ _ => rfl⟩

/-- C3 (counterexample): on the text-ingestion trace the claim fails:
the `CHUNKED` transition (index 4) is recorded *before* the chunking
work (index 6), not after it — and no commit separates the stage works
either. -/
theorem ingest_text_stage_transitions_not_durable :
    (stageDurabilityClaim ingest_text_events → False) ∧
    ingest_text_events.getD 4 PipeEvent.flush = PipeEvent.set_stage JobStage.chunked ∧
    ingest_text_events.getD 6 PipeEvent.flush = PipeEvent.work_chunk := by
  refine ⟨?_, rfl, rfl⟩
  intro h
  have h1 := h.1 4 (by decide) 6 (by decide) (by decide) (by decide)
  exact absurd h1 (by decide)

/-- C3 (amended): in every ingestion path each stage transition is
*flushed* (sent inside the still-open transaction) immediately after it
is set and *before* the corresponding stage's work begins — the job
records the stage being attempted, not the last completed one — and the
single `commit`, the only durable point, is the last event of the
trace. -/
theorem pipeline_stage_flush_discipline :
    stageFlushDiscipline ingest_text_events ∧
    stageFlushDiscipline ingest_url_events ∧
    stageFlushDiscipline ingest_audio_events ∧
    stageFlushDiscipline ingest_document_events := by
  refine ⟨?_, ?_, ?_, ?_⟩ <;> decide

/-- C1 (counterexample): neither subquery filters on
`Document.status`: on a store holding a FAILED document with an indexed
chunk, both the dense and the sparse subqueries return that chunk. -/
theorem retrieval_returns_failed_document_chunks :
    exFailedDoc.status = JobStatus.failed ∧
    exStore.documents = [exFailedDoc] ∧
    exFailedDoc.id = 1 ∧
    (vector_search exStore 7 [1] 30 none none exDist).map
      (fun r => (r.1.chunk_id, r.1.document_id)) = [(10, 1)] ∧
    (fulltext_search exStore 7 "hello" 30 none none exMatch exRank exOk).map
      (fun r => (r.1.chunk_id, r.1.document_id)) = [(10, 1)] := by
  refine ⟨rfl, rfl, rfl, ?_, ?_⟩ <;> decide

/-- Helper: `temporalLoop` on a pattern list whose prefix has no search
hit reduces to the first hitting pattern: the residual is the stripped
`re.sub` removal of *that* pattern's spans. -/
theorem temporalLoop_first
    (pre rest : List (List RTok × (Option (List Char) → PyDateTime → PyDateTime × PyDateTime)))
    (p : List RTok) (h : Option (List Char) → PyDateTime → PyDateTime × PyDateTime)
    (q : String) (ref : PyDateTime) (cap : Option (List Char))
    (hpre : ∀ x ∈ pre, reSearch x.1 q = none)
    (hp : reSearch p q = some cap) :
    temporalLoop (pre ++ (p, h) :: rest) q ref =
      some (pyStrip (reSub p q), (h cap ref).1, (h cap ref).2) := by
  induction pre with
  | nil => simp [temporalLoop, hp]
  | cons x xs ih =>
      obtain ⟨xp, xh⟩ := x
      have hx : reSearch xp q = none := hpre (xp, xh) (by simp)
      simpa [temporalLoop, hx] using ih (fun y hy => hpre y (by simp [hy]))

/-- C6 (amended): when the first pattern (in declaration order) with a
search hit in the query is `p`, the residual query is the original with
*every* non-overlapping span matching `p` removed (`re.sub` with no
count), stripped; phrases matching only later patterns are left in the
residual, but further occurrences of `p` itself are removed as well. -/
theorem parse_time_first_pattern_all_spans
    (pre rest : List (List RTok × (Option (List Char) → PyDateTime → PyDateTime × PyDateTime)))
    (p : List RTok) (h : Option (List Char) → PyDateTime → PyDateTime × PyDateTime)
    (q : String) (ref : PyDateTime) (cap : Option (List Char))
    (hpats : temporalPatterns = pre ++ (p, h) :: rest)
    (hpre : ∀ x ∈ pre, reSearch x.1 q = none)
    (hp : reSearch p q = some cap) :
    parse_time_expression q ref =
      (pyStrip (reSub p q), some (h cap ref).1, some (h cap ref).2) := by
  unfold parse_time_expression
  rw [hpats, temporalLoop_first pre rest p h q ref cap hpre hp]

set_option synthInstance.maxHeartbeats 1000000

/-- Witness for C6's amended theorem: on
`"yesterday and yesterday"` the first hitting pattern is
`\byesterday\b` (the `last <weekday>` pattern has no hit), and the
parser returns the `re.sub`-stripped residual with yesterday's
interval. -/
theorem parse_time_first_pattern_all_spans_witness :
    parse_time_expression "yesterday and yesterday" ⟨6, 0⟩ =
      (pyStrip (reSub [lw "yesterday"] "yesterday and yesterday"),
       some (subDays ⟨6, 0⟩ 1), some ⟨6, 0⟩) :=
  parse_time_first_pattern_all_spans
    [([lw "last", altCap weekdayNames],
      fun cap ref => get_last_weekday (cap.getD []) ref)]
    [([lw "last", lw "week"], fun _ ref => (subDays ref 7, ref)),
     ([lw "last", lw "month"], fun _ ref => (subDays ref 30, ref)),
     ([lw "last", RTok.digits, RTok.lits ["days".data, "day".data] false],
      fun cap ref => (subDays ref (digitsToNat (cap.getD []) : Int), ref)),
     ([lw "in", altCap monthNames], fun cap ref => get_month_range (cap.getD []) ref),
     ([lw "this", lw "week"], fun _ ref => (subDays ref (pyWeekday ref), ref)),
     ([lw "today"], fun _ ref => (⟨ref.days, ref.usec % 1000000⟩, ref))]
    [lw "yesterday"] (fun _ ref => (subDays ref 1, ref))
    "yesterday and yesterday" ⟨6, 0⟩ none rfl (by decide) (by decide)

/-- C6 (counterexample): on `"yesterday and yesterday"` the code's
residual is `"and"`: the second occurrence of the matched phrase is
*also* removed, while the claim ("exactly that one matched span is
removed … additional temporal phrases remain in the residual") demands
the residual `"and yesterday"`. -/
theorem parse_time_second_phrase_consumed :
    (parse_time_expression "yesterday and yesterday" ⟨6, 0⟩).1 = "and" ∧
    spec_residual_one_span [lw "yesterday"] "yesterday and yesterday" =
      "and yesterday" ∧
    ("and" : String) ≠ "and yesterday" := by
  refine ⟨?_, ?_, ?_⟩ <;> decide

/-- C7 (amended): for every query whose first hitting pattern is
`\bthis\s+week\b`, the returned interval is
`[reference − weekday(reference) days, reference)`: its start is Monday
of the current week *at the reference's time of day*, not Monday
00:00. -/
theorem this_week_interval (q : String) (ref : PyDateTime) (cap : Option (List Char))
    (hpre : ∀ x ∈ temporalPatterns.take 6, reSearch x.1 q = none)
    (hp : reSearch [lw "this", lw "week"] q = some cap) :
    parse_time_expression q ref =
      (pyStrip (reSub [lw "this", lw "week"] q),
       some (subDays ref (pyWeekday ref)), some ref) := by
  unfold parse_time_expression
  rw [show temporalPatterns = temporalPatterns.take 6 ++
        ([lw "this", lw "week"],
         fun (_ : Option (List Char)) (r : PyDateTime) => (subDays r (pyWeekday r), r)) ::
        [([lw "today"],
          fun (_ : Option (List Char)) (r : PyDateTime) => (⟨r.days, r.usec % 1000000⟩, r))]
      from rfl,
    temporalLoop_first _ _ _ _ q ref cap hpre hp]

/-- Witness for C7's amended theorem at the concrete query
`"this week"` and a Wednesday-01:00 reference time. -/
theorem this_week_interval_witness :
    parse_time_expression "this week" ⟨6, 3600000000⟩ =
      (pyStrip (reSub [lw "this", lw "week"] "this week"),
       some (subDays ⟨6, 3600000000⟩ (pyWeekday ⟨6, 3600000000⟩)),
       some ⟨6, 3600000000⟩) :=
  this_week_interval "this week" ⟨6, 3600000000⟩ none (by decide) (by decide)

/-- C7 (counterexample): with reference time Wednesday 1970-01-07
01:00, the parser's "this week" interval starts at Monday 01:00 (day 4,
usec 3600000000), not at Monday 00:00 as the claim states. -/
theorem this_week_start_keeps_time_of_day :
    (parse_time_expression "this week" ⟨6, 3600000000⟩).2.1 =
      some ⟨4, 3600000000⟩ ∧
    monday_midnight_of_week ⟨6, 3600000000⟩ = ⟨4, 0⟩ ∧
    some (⟨4, 3600000000⟩ : PyDateTime) ≠ some (⟨4, 0⟩ : PyDateTime) := by
  refine ⟨?_, ?_, ?_⟩ <;> decide

/-- Helper: a segment that is blank after stripping leaves the loop
state of `chunk_audio_segments` unchanged. -/
theorem audio_step_blank (ct : String → Nat) (t : Int) (acc : AudioAcc)
    (s : AudioSegment) (h : pyStrip s.text = "") :
    audio_step ct t acc s = acc := by
  simp [audio_step, h]

/-- Helper: the segment fold of `chunk_audio_segments` only sees the
non-blank segments. -/
theorem audio_foldl_filter (ct : String → Nat) (t : Int) :
    ∀ (segs : List AudioSegment) (acc : AudioAcc),
      segs.foldl (audio_step ct t) acc =
        (segs.filter (fun s => !(pyStrip s.text == ""))).foldl (audio_step ct t) acc := by
  intro segs
  induction segs with
  | nil => intro _; rfl
  | cons s rest ih =>
      intro acc
      by_cases h : pyStrip s.text = ""
      · simp [List.foldl_cons, List.filter_cons, h, audio_step_blank ct t acc s h, ih]
      · simp [List.foldl_cons, List.filter_cons, h, ih]

/-- Helper: `chunk_audio_segments` is unchanged by dropping the blank
segments up front. -/
theorem chunk_audio_filter_eq (ct : String → Nat) (t : Int) (segs : List AudioSegment) :
    chunk_audio_segments ct segs t =
      chunk_audio_segments ct (segs.filter (fun s => !(pyStrip s.text == ""))) t := by
  unfold chunk_audio_segments
  by_cases hs : segs = []
  · subst hs; rfl
  · by_cases hf : segs.filter (fun s => !(pyStrip s.text == "")) = []
    · have hfold := audio_foldl_filter ct t segs ⟨[], [], none, none, 0, 0⟩
      rw [hf] at hfold
      simp [hs, hf, hfold]
    · rw [if_neg hs, if_neg hf, audio_foldl_filter ct t segs]

/-- C10: `chunk_audio_segments` ignores segments whose text is empty or
whitespace-only — the output equals that on the list with blank
segments filtered out, so such segments contribute neither text nor
time anchors to any chunk — and a list of only blank segments yields
zero chunks. -/
theorem chunk_audio_segments_ignore_blank :
    (∀ (ct : String → Nat) (t : Int) (segs : List AudioSegment),
        chunk_audio_segments ct segs t =
          chunk_audio_segments ct (segs.filter (fun s => !(pyStrip s.text == ""))) t) ∧
    (∀ (ct : String → Nat) (t : Int) (segs : List AudioSegment),
        (∀ s ∈ segs, pyStrip s.text = "") →
        chunk_audio_segments ct segs t = []) := by
  refine ⟨chunk_audio_filter_eq, ?_⟩
  intro ct t segs hall
  have hf : segs.filter (fun s => !(pyStrip s.text == "")) = [] := by
    rw [List.filter_eq_nil_iff]
    intro s hs
    simp [hall s hs]
  rw [chunk_audio_filter_eq, hf]
  rfl

/-- Witness for C10 at a concrete blank-only segment list. -/
theorem chunk_audio_segments_ignore_blank_witness :
    (∀ s ∈ [(⟨"  ", some 0, some 70000⟩ : AudioSegment)], pyStrip s.text = "") ∧
    chunk_audio_segments String.length [⟨"  ", some 0, some 70000⟩] 60000 = [] :=
  ⟨by decide,
   chunk_audio_segments_ignore_blank.2 String.length 60000
     [⟨"  ", some 0, some 70000⟩] (by decide)⟩

/-- C9: when the provider responds with exactly the items
`(i, f(texts[i]))` in any order, `embed_texts` returns one embedding
per input in input order; the empty input yields the empty output
before any provider call. -/
theorem embed_texts_preserves_input_order {E : Type} (texts : List String)
    (f : String → E) (provider : List String → List (Nat × E))
    (hresp : (provider texts).Perm ((texts.map f).enum)) :
    embed_texts texts provider = texts.map f ∧
    ∀ p2 : List String → List (Nat × E), embed_texts ([] : List String) p2 = [] := by
  refine ⟨?_, fun _ => rfl⟩
  by_cases ht : texts = []
  · subst ht
    rfl
  · unfold embed_texts
    rw [if_neg ht]
    have hperm : ((provider texts).insertionSort (fun a b => a.1 ≤ b.1)).Perm
        ((texts.map f).enum) :=
      (List.perm_insertionSort _ (provider texts)).trans hresp
    have hsorted_le :
        List.Sorted (fun a b : Nat × E => a.1 ≤ b.1)
          ((provider texts).insertionSort (fun a b => a.1 ≤ b.1)) :=
      List.sorted_insertionSort _ (provider texts)
    have hkeys :
        (((provider texts).insertionSort (fun a b => a.1 ≤ b.1)).map Prod.fst).Nodup := by
      have hpm := hperm.map Prod.fst
      rw [List.enum_map_fst] at hpm
      exact hpm.symm.nodup (List.nodup_range _)
    have hsorted_lt :
        List.Sorted (fun a b : Nat × E => a.1 < b.1)
          ((provider texts).insertionSort (fun a b => a.1 ≤ b.1)) := by
      have hne : List.Pairwise (fun a b : Nat × E => a.1 ≠ b.1)
          ((provider texts).insertionSort (fun a b => a.1 ≤ b.1)) :=
        List.pairwise_map.mp hkeys
      exact (hsorted_le.and hne).imp (fun h => Nat.lt_of_le_of_ne h.1 h.2)
    have henum : List.Sorted (fun a b : Nat × E => a.1 < b.1) ((texts.map f).enum) := by
      have hr : List.Pairwise (fun a b : Nat => a < b)
          (((texts.map f).enum).map Prod.fst) := by
        rw [List.enum_map_fst]
        exact List.pairwise_lt_range _
      exact List.pairwise_map.mp hr
    rw [List.eq_of_perm_of_sorted hperm hsorted_lt henum, List.enum_map_snd]

/-- Witness for C9: two inputs, a provider answering with indices out
of order. -/
theorem embed_texts_preserves_input_order_witness :
    embed_texts ["a", "bbb"] (fun _ => [(1, 3), (0, 1)]) =
      ["a", "bbb"].map String.length := by
  exact (embed_texts_preserves_input_order ["a", "bbb"] String.length
    (fun _ => [(1, 3), (0, 1)]) (by decide)).1

/-- Helper: the temporal filter never reads the document status. -/
theorem temporalFilter_status (t0 t1 : Option PyDateTime) (c : SChunk)
    (d : SDocument) (f : SDocument → JobStatus) :
    temporalFilter t0 t1 c (withStatus f d) = temporalFilter t0 t1 c d := by
  cases t0 <;> cases t1 <;> rfl

/-- Helper: filtering a mapped list when the predicate is unchanged by
the map. -/
theorem filter_map_invariant {α : Type} (g : α → α) (p : α → Bool)
    (hp : ∀ a, p (g a) = p a) :
    ∀ l : List α, (l.map g).filter p = (l.filter p).map g := by
  intro l
  induction l with
  | nil => rfl
  | cons a t ih =>
      rw [List.map_cons, List.filter_cons, List.filter_cons, hp a]
      by_cases h : p a = true
      · rw [if_pos h, if_pos h, List.map_cons, ih]
      · rw [if_neg h, if_neg h, ih]

/-- Helper: `insertionSort` commutes with a map preserving the
relation. -/
theorem insertionSort_map {α : Type} (r : α → α → Prop) [DecidableRel r] (g : α → α)
    (hr : ∀ a b, r (g a) (g b) ↔ r a b) :
    ∀ l : List α, (l.map g).insertionSort r = (l.insertionSort r).map g := by
  intro l
  induction l with
  | nil => rfl
  | cons a t ih =>
      simp only [List.map_cons, List.insertionSort]
      rw [ih, List.map_orderedInsert r r g (t.insertionSort r) a
        (fun b _ => (hr b a).symm) (fun b _ => (hr a b).symm)]

/-- Helper: rewriting document statuses rewrites the joined rows of the
dense subquery pointwise. -/
theorem joinRowsV_status (st : Store) (f : SDocument → JobStatus) :
    joinRowsV (setDocStatuses f st) = (joinRowsV st).map (rowWithStatusV f) := by
  obtain ⟨docs, chunks, embs⟩ := st
  unfold joinRowsV setDocStatuses
  dsimp only
  rw [List.map_flatMap]
  refine List.flatMap_congr (fun c _ => ?_)
  rw [List.map_flatMap]
  refine List.flatMap_congr (fun e _ => ?_)
  rw [filter_map_invariant (withStatus f)
    (fun d => d.id = c.document_id) (fun _ => rfl) docs,
    List.map_map, List.map_map]
  rfl

/-- Helper: rewriting document statuses rewrites the joined rows of the
sparse subquery pointwise. -/
theorem joinRowsT_status (st : Store) (f : SDocument → JobStatus) :
    joinRowsT (setDocStatuses f st) = (joinRowsT st).map (rowWithStatusT f) := by
  obtain ⟨docs, chunks, embs⟩ := st
  unfold joinRowsT setDocStatuses
  dsimp only
  rw [List.map_flatMap]
  refine List.flatMap_congr (fun c _ => ?_)
  rw [filter_map_invariant (withStatus f)
    (fun d => d.id = c.document_id) (fun _ => rfl) docs,
    List.map_map, List.map_map]
  rfl

/-- C1 (amended): the dense and sparse subqueries filter only on
`Chunk.user_id` and the temporal window; neither reads
`Document.status`, so rewriting every document status arbitrarily
leaves both subquery outputs unchanged — chunks of non-COMPLETED
documents present in the store are returned like any others (their
absence relies on the write transaction, not on a retrieval filter). -/
theorem retrieval_queries_ignore_document_status :
    ∀ (st : Store) (f : SDocument → JobStatus) (u : Nat) (qe : List ℚ) (lim : Nat)
      (t0 t1 : Option PyDateTime) (dist : List ℚ → List ℚ → ℚ) (q : String)
      (tm : String → String → Bool) (trk : String → String → ℚ) (tok : String → Bool),
      vector_search (setDocStatuses f st) u qe lim t0 t1 dist =
        vector_search st u qe lim t0 t1 dist ∧
      fulltext_search (setDocStatuses f st) u q lim t0 t1 tm trk tok =
        fulltext_search st u q lim t0 t1 tm trk tok := by
  intro st f u qe lim t0 t1 dist q tm trk tok
  constructor
  · unfold vector_search
    dsimp only
    rw [joinRowsV_status st f,
      filter_map_invariant (rowWithStatusV f)
        (fun row => row.1.user_id = u && temporalFilter t0 t1 row.1 row.2.1)
        (fun row => by
          obtain ⟨c, d, e⟩ := row
          simp only [rowWithStatusV, temporalFilter_status])
        (joinRowsV st),
      insertionSort_map
        (fun a b : SChunk × SDocument × SEmbedding =>
          dist a.2.2.embedding qe ≤ dist b.2.2.embedding qe)
        (rowWithStatusV f) (fun a b => Iff.rfl),
      ← List.map_take, List.map_map]
    rfl
  · unfold fulltext_search
    dsimp only
    by_cases htok : tok (String.intercalate " & " (pySplit q)) = true
    · simp only [htok, Bool.not_true, Bool.false_eq_true, if_false]
      rw [joinRowsT_status st f,
        filter_map_invariant (rowWithStatusT f)
          (fun row => row.1.user_id = u &&
            tm row.1.text (String.intercalate " & " (pySplit q)) &&
            temporalFilter t0 t1 row.1 row.2)
          (fun row => by
            obtain ⟨c, d⟩ := row
            simp only [rowWithStatusT, temporalFilter_status])
          (joinRowsT st),
        insertionSort_map
          (fun a b : SChunk × SDocument =>
            trk b.1.text (String.intercalate " & " (pySplit q)) ≤
              trk a.1.text (String.intercalate " & " (pySplit q)))
          (rowWithStatusT f) (fun a b => Iff.rfl),
        ← List.map_take, List.map_map]
      rfl
    · simp only [Bool.not_eq_true] at htok
      simp only [htok, Bool.not_false, if_true]

/-- Helper: every dense-subquery result corresponds to a chunk row of
the store owned by the queried user. -/
theorem vector_search_mem (st : Store) (u : Nat) (qe : List ℚ) (lim : Nat)
    (t0 t1 : Option PyDateTime) (dist : List ℚ → List ℚ → ℚ)
    (x : RetrievedChunk × ℚ) (hx : x ∈ vector_search st u qe lim t0 t1 dist) :
    ∃ c ∈ st.chunks, c.id = x.1.chunk_id ∧ c.user_id = u := by
  unfold vector_search at hx
  dsimp only at hx
  rw [List.mem_map] at hx
  obtain ⟨row, hrow, hxeq⟩ := hx
  have hrow2 := List.take_subset _ _ hrow
  rw [List.mem_insertionSort, List.mem_filter] at hrow2
  obtain ⟨hjoin, hpred⟩ := hrow2
  have huser : row.1.user_id = u := by
    have h1 := (Bool.and_eq_true _ _).mp hpred
    simpa using h1.1
  unfold joinRowsV at hjoin
  rw [List.mem_flatMap] at hjoin
  obtain ⟨c, hc, hcrow⟩ := hjoin
  rw [List.mem_flatMap] at hcrow
  obtain ⟨e, _, hcrow2⟩ := hcrow
  rw [List.mem_map] at hcrow2
  obtain ⟨d, _, hroweq⟩ := hcrow2
  refine ⟨c, hc, ?_, ?_⟩
  · rw [← hxeq, ← hroweq]
    rfl
  · rw [← hroweq] at huser
    exact huser

/-- Helper: every sparse-subquery result corresponds to a chunk row of
the store owned by the queried user. -/
theorem fulltext_search_mem (st : Store) (u : Nat) (q : String) (lim : Nat)
    (t0 t1 : Option PyDateTime) (tm : String → String → Bool)
    (trk : String → String → ℚ) (tok : String → Bool)
    (x : RetrievedChunk × ℚ) (hx : x ∈ fulltext_search st u q lim t0 t1 tm trk tok) :
    ∃ c ∈ st.chunks, c.id = x.1.chunk_id ∧ c.user_id = u := by
  unfold fulltext_search at hx
  dsimp only at hx
  by_cases htok : tok (String.intercalate " & " (pySplit q)) = true
  · rw [if_neg (by simp [htok])] at hx
    rw [List.mem_map] at hx
    obtain ⟨row, hrow, hxeq⟩ := hx
    have hrow2 := List.take_subset _ _ hrow
    rw [List.mem_insertionSort, List.mem_filter] at hrow2
    obtain ⟨hjoin, hpred⟩ := hrow2
    have huser : row.1.user_id = u := by
      have h1 := (Bool.and_eq_true _ _).mp ((Bool.and_eq_true _ _).mp hpred).1
      simpa using h1.1
    unfold joinRowsT at hjoin
    rw [List.mem_flatMap] at hjoin
    obtain ⟨c, hc, hcrow⟩ := hjoin
    rw [List.mem_map] at hcrow
    obtain ⟨d, _, hroweq⟩ := hcrow
    refine ⟨c, hc, ?_, ?_⟩
    · rw [← hxeq, ← hroweq]
      rfl
    · rw [← hroweq] at huser
      exact huser
  · rw [if_pos (by simp [htok])] at hx
    exact absurd hx (List.not_mem_nil x)

/-- Helper: a `dictSet` result entry either carries the inserted value
or was already present. -/
theorem dictSet_entry_mem (k : Nat) (v : MergeEntry) :
    ∀ (d : List (Nat × MergeEntry)) (kv : Nat × MergeEntry),
      kv ∈ dictSet k v d → kv.2 = v ∨ kv ∈ d := by
  intro d
  induction d with
  | nil =>
      intro kv h
      rw [dictSet, List.mem_singleton] at h
      left
      rw [h]
  | cons a t ih =>
      intro kv h
      obtain ⟨k', v'⟩ := a
      rw [dictSet] at h
      by_cases hk : k' = k
      · rw [if_pos hk, List.mem_cons] at h
        rcases h with h | h
        · left; rw [h]
        · right; exact List.mem_cons_of_mem _ h
      · rw [if_neg hk, List.mem_cons] at h
        rcases h with h | h
        · right; rw [h]; exact List.mem_cons_self _ _
        · rcases ih kv h with h2 | h2
          · left; exact h2
          · right; exact List.mem_cons_of_mem _ h2

/-- Helper: a `dictSetText` result entry's chunk is the inserted chunk
or the chunk of an entry already present. -/
theorem dictSetText_entry_chunk (c : RetrievedChunk) (s : ℚ) :
    ∀ (d : List (Nat × MergeEntry)) (kv : Nat × MergeEntry),
      kv ∈ dictSetText c s d →
      kv.2.chunk = c ∨ ∃ kv' ∈ d, kv.2.chunk = kv'.2.chunk := by
  intro d
  induction d with
  | nil =>
      intro kv h
      rw [dictSetText, List.mem_singleton] at h
      left
      rw [h]
  | cons a t ih =>
      intro kv h
      obtain ⟨k', v'⟩ := a
      rw [dictSetText] at h
      by_cases hk : k' = c.chunk_id
      · rw [if_pos hk, List.mem_cons] at h
        rcases h with h | h
        · right
          exact ⟨(k', v'), List.mem_cons_self _ _, by rw [h]⟩
        · right
          exact ⟨kv, List.mem_cons_of_mem _ h, rfl⟩
      · rw [if_neg hk, List.mem_cons] at h
        rcases h with h | h
        · right; exact ⟨(k', v'), List.mem_cons_self _ _, by rw [h]⟩
        · rcases ih kv h with h2 | ⟨kv', hkv', he⟩
          · left; exact h2
          · right; exact ⟨kv', List.mem_cons_of_mem _ hkv', he⟩

/-- Helper: after the vector fold of `_merge_results`, every entry's
chunk comes from the vector results or the initial dict. -/
theorem foldl_dictSet_chunk (vr : List (RetrievedChunk × ℚ)) :
    ∀ (acc : List (Nat × MergeEntry)) (kv : Nat × MergeEntry),
      kv ∈ vr.foldl (fun d cs => dictSet cs.1.chunk_id ⟨cs.1, cs.2, 0⟩ d) acc →
      (∃ p ∈ vr, kv.2.chunk = p.1) ∨ kv ∈ acc := by
  induction vr with
  | nil =>
      intro acc kv h
      right
      exact h
  | cons p rest ih =>
      intro acc kv h
      rw [List.foldl_cons] at h
      rcases ih _ kv h with ⟨p', hp', he⟩ | h2
      · left; exact ⟨p', List.mem_cons_of_mem _ hp', he⟩
      · rcases dictSet_entry_mem _ _ acc kv h2 with h3 | h4
        · left
          exact ⟨p, List.mem_cons_self _ _, by rw [h3]⟩
        · right; exact h4

/-- Helper: after the text fold of `_merge_results`, every entry's
chunk comes from the text results or from an entry of the initial
dict. -/
theorem foldl_dictSetText_chunk (tr : List (RetrievedChunk × ℚ)) :
    ∀ (acc : List (Nat × MergeEntry)) (kv : Nat × MergeEntry),
      kv ∈ tr.foldl (fun d cs => dictSetText cs.1 cs.2 d) acc →
      (∃ p ∈ tr, kv.2.chunk = p.1) ∨ ∃ kv' ∈ acc, kv.2.chunk = kv'.2.chunk := by
  induction tr with
  | nil =>
      intro acc kv h
      right
      exact ⟨kv, h, rfl⟩
  | cons p rest ih =>
      intro acc kv h
      rw [List.foldl_cons] at h
      rcases ih _ kv h with ⟨p', hp', he⟩ | ⟨kv', hkv', he⟩
      · left; exact ⟨p', List.mem_cons_of_mem _ hp', he⟩
      · rcases dictSetText_entry_chunk p.1 p.2 acc kv' hkv' with h3 | ⟨kv'', hkv'', he2⟩
        · left
          exact ⟨p, List.mem_cons_self _ _, by rw [he, h3]⟩
        · right
          exact ⟨kv'', hkv'', by rw [he, he2]⟩

/-- Helper: every merged result's chunk id is the chunk id of some
input result (vector or text side). -/
theorem merge_results_chunk_source (vr tr : List (RetrievedChunk × ℚ)) (vw tw : ℚ)
    (r : RetrievedChunk) (hr : r ∈ merge_results vr tr vw tw) :
    ∃ c0 : RetrievedChunk,
      ((∃ s, (c0, s) ∈ vr) ∨ (∃ s, (c0, s) ∈ tr)) ∧ r.chunk_id = c0.chunk_id := by
  unfold merge_results at hr
  dsimp only at hr
  rw [List.mem_insertionSort, List.mem_map] at hr
  obtain ⟨kv, hkv, hreq⟩ := hr
  have hid : r.chunk_id = kv.2.chunk.chunk_id := by
    rw [← hreq]
  rcases foldl_dictSetText_chunk tr _ kv hkv with ⟨p, hp, he⟩ | ⟨kv', hkv', he⟩
  · exact ⟨kv.2.chunk, Or.inr ⟨p.2, by rw [he]; simpa using hp⟩, hid⟩
  · rcases foldl_dictSet_chunk vr _ kv' hkv' with ⟨p, hp, he2⟩ | habs
    · exact ⟨kv.2.chunk, Or.inl ⟨p.2, by rw [he, he2]; simpa using hp⟩, hid⟩
    · exact absurd habs (List.not_mem_nil kv')

/-- C2: for every store contents, query, and parameters, every chunk
returned by `retrieve` is a chunk row of the store whose `user_id`
equals the querying user's — no cross-user leakage. -/
theorem retrieve_results_owned_by_user :
    ∀ (st : Store) (u : Nat) (q : String) (ref : PyDateTime) (top_k : Nat)
      (vw tw : ℚ) (ef : String → List ℚ) (dist : List ℚ → List ℚ → ℚ)
      (tm : String → String → Bool) (trk : String → String → ℚ)
      (tok : String → Bool) (r : RetrievedChunk),
      r ∈ retrieve st u q ref top_k vw tw ef dist tm trk tok →
      ∃ c ∈ st.chunks, c.id = r.chunk_id ∧ c.user_id = u := by
  intro st u q ref top_k vw tw ef dist tm trk tok r hr
  unfold retrieve at hr
  dsimp only at hr
  have hr2 := List.take_subset _ _ hr
  obtain ⟨c0, hsrc, hid⟩ := merge_results_chunk_source _ _ vw tw r hr2
  rcases hsrc with ⟨s, hs⟩ | ⟨s, hs⟩
  · obtain ⟨c, hc, hceq, hcu⟩ := vector_search_mem st u _ _ _ _ dist (c0, s) hs
    exact ⟨c, hc, hceq.trans hid.symm, hcu⟩
  · obtain ⟨c, hc, hceq, hcu⟩ := fulltext_search_mem st u _ _ _ _ tm trk tok (c0, s) hs
    exact ⟨c, hc, hceq.trans hid.symm, hcu⟩

unseal Rat.add Rat.mul Rat.sub Rat.inv in
/-- Witness for C2 on the concrete store: the single retrieved chunk
belongs to user 7. -/
theorem retrieve_results_owned_by_user_witness :
    ∃ c ∈ exStore.chunks, c.id = exRetrieved.chunk_id ∧ c.user_id = 7 :=
  retrieve_results_owned_by_user exStore 7 "hello" ⟨6, 0⟩ 10 ((7 : ℚ) / 10)
    ((3 : ℚ) / 10) exEmbed exDist exMatch exRank exOk exRetrieved (by decide)

/-- Helper: `lookupScore` on a cons. -/
theorem lookupScore_cons (p : RetrievedChunk × ℚ) (l : List (RetrievedChunk × ℚ))
    (id : Nat) :
    lookupScore (p :: l) id =
      if p.1.chunk_id = id then p.2 else lookupScore l id := by
  unfold lookupScore
  rw [List.find?_cons]
  by_cases h : p.1.chunk_id = id
  · have hb : (p.1.chunk_id == id) = true := by simpa using h
    simp [hb, h]
  · have hb : (p.1.chunk_id == id) = false := by simpa using h
    simp [hb, h]

/-- Helper: an id not occurring in a result list scores 0. -/
theorem lookupScore_not_mem (id : Nat) :
    ∀ l : List (RetrievedChunk × ℚ),
      id ∉ l.map (fun p => p.1.chunk_id) → lookupScore l id = 0 := by
  intro l
  induction l with
  | nil => intro _; rfl
  | cons p t ih =>
      intro h
      rw [List.map_cons, List.mem_cons] at h
      push_neg at h
      rw [lookupScore_cons, if_neg (fun he => h.1 he.symm)]
      exact ih h.2

/-- Helper: with distinct ids, each result's own id looks up its own
score. -/
theorem lookupScore_self :
    ∀ (l : List (RetrievedChunk × ℚ)), (l.map (fun p => p.1.chunk_id)).Nodup →
      ∀ p ∈ l, lookupScore l p.1.chunk_id = p.2 := by
  intro l
  induction l with
  | nil => intro _ p hp; exact absurd hp (List.not_mem_nil p)
  | cons q t ih =>
      intro hnodup p hp
      rw [List.map_cons, List.nodup_cons] at hnodup
      rw [List.mem_cons] at hp
      rcases hp with hp | hp
      · rw [hp, lookupScore_cons, if_pos rfl]
      · have hne : q.1.chunk_id ≠ p.1.chunk_id := fun he => hnodup.1 (by
          rw [he]
          exact List.mem_map_of_mem _ hp)
        rw [lookupScore_cons, if_neg hne]
        exact ih hnodup.2 p hp

/-- Helper: appending a result with a different id does not change a
lookup. -/
theorem lookupScore_append_ne (p : RetrievedChunk × ℚ) (id : Nat)
    (h : p.1.chunk_id ≠ id) :
    ∀ l : List (RetrievedChunk × ℚ),
      lookupScore (l ++ [p]) id = lookupScore l id := by
  intro l
  induction l with
  | nil =>
      show lookupScore [p] id = lookupScore [] id
      rw [lookupScore_cons, if_neg h]
  | cons q t ih =>
      rw [List.cons_append, lookupScore_cons, lookupScore_cons, ih]

/-- Helper: appending a result with a fresh id makes its id look up its
score. -/
theorem lookupScore_append_self (p : RetrievedChunk × ℚ) :
    ∀ l : List (RetrievedChunk × ℚ),
      p.1.chunk_id ∉ l.map (fun q => q.1.chunk_id) →
      lookupScore (l ++ [p]) p.1.chunk_id = p.2 := by
  intro l
  induction l with
  | nil =>
      intro _
      show lookupScore [p] p.1.chunk_id = p.2
      rw [lookupScore_cons, if_pos rfl]
  | cons q t ih =>
      intro h
      rw [List.map_cons, List.mem_cons] at h
      push_neg at h
      rw [List.cons_append, lookupScore_cons, if_neg (fun he => h.1 he.symm)]
      exact ih h.2

/-- Helper: inserting a fresh key appends at the end of the dict. -/
theorem dictSet_fresh (k : Nat) (v : MergeEntry) :
    ∀ d : List (Nat × MergeEntry), k ∉ d.map Prod.fst →
      dictSet k v d = d ++ [(k, v)] := by
  intro d
  induction d with
  | nil => intro _; rfl
  | cons a t ih =>
      intro h
      obtain ⟨k', v'⟩ := a
      rw [List.map_cons, List.mem_cons] at h
      push_neg at h
      rw [dictSet, if_neg (fun he => h.1 he.symm), ih h.2, List.cons_append]

/-- Helper: with distinct and fresh ids, the vector fold of
`_merge_results` lays out one entry per vector result in order. -/
theorem foldl_dictSet_eq :
    ∀ (vr : List (RetrievedChunk × ℚ)) (acc : List (Nat × MergeEntry)),
      (∀ p ∈ vr, p.1.chunk_id ∉ acc.map Prod.fst) →
      (vr.map (fun p => p.1.chunk_id)).Nodup →
      vr.foldl (fun d cs => dictSet cs.1.chunk_id ⟨cs.1, cs.2, 0⟩ d) acc =
        acc ++ vr.map (fun cs => (cs.1.chunk_id, ⟨cs.1, cs.2, 0⟩)) := by
  intro vr
  induction vr with
  | nil => intro acc _ _; rw [List.map_nil, List.append_nil]; rfl
  | cons p rest ih =>
      intro acc hfresh hnodup
      rw [List.map_cons, List.nodup_cons] at hnodup
      have hfresh2 : ∀ q ∈ rest, q.1.chunk_id ∉
          (acc ++ [(p.1.chunk_id, (⟨p.1, p.2, 0⟩ : MergeEntry))]).map Prod.fst := by
        intro q hq
        rw [List.map_append, List.mem_append]
        push_neg
        refine ⟨hfresh q (List.mem_cons_of_mem _ hq), ?_⟩
        rw [List.map_singleton, List.mem_singleton]
        intro he
        have he' : q.1.chunk_id = p.1.chunk_id := he
        exact hnodup.1 (by rw [← he']; exact List.mem_map_of_mem _ hq)
      have hih := ih (acc ++ [(p.1.chunk_id, (⟨p.1, p.2, 0⟩ : MergeEntry))])
        hfresh2 hnodup.2
      rw [List.foldl_cons,
        dictSet_fresh p.1.chunk_id ⟨p.1, p.2, 0⟩ acc (hfresh p (List.mem_cons_self _ _)),
        hih, List.map_cons, List.append_assoc]
      rfl

/-- Helper: the invariant holds after the vector loop. -/
theorem mergeInv_base (vr : List (RetrievedChunk × ℚ))
    (hvr : (vr.map (fun p => p.1.chunk_id)).Nodup) :
    MergeInv vr []
      (vr.foldl (fun d cs => dictSet cs.1.chunk_id ⟨cs.1, cs.2, 0⟩ d) []) := by
  rw [foldl_dictSet_eq vr [] (fun p _ => List.not_mem_nil _) hvr, List.nil_append]
  refine ⟨?_, ?_, ?_⟩
  · intro kv hkv
    rw [List.mem_map] at hkv
    obtain ⟨p, hp, hpe⟩ := hkv
    subst hpe
    exact ⟨rfl, (lookupScore_self vr hvr p hp).symm, rfl⟩
  · intro p hp
    rw [List.map_map]
    exact List.mem_map_of_mem _ hp
  · rw [List.map_map]
    exact hvr

/-- Helper: updating an absent key appends a fresh entry. -/
theorem dictSetText_absent (c : RetrievedChunk) (s : ℚ) :
    ∀ d : List (Nat × MergeEntry), c.chunk_id ∉ d.map Prod.fst →
      dictSetText c s d = d ++ [(c.chunk_id, ⟨c, 0, s⟩)] := by
  intro d
  induction d with
  | nil => intro _; rfl
  | cons a t ih =>
      intro h
      obtain ⟨k', v'⟩ := a
      rw [List.map_cons, List.mem_cons] at h
      push_neg at h
      rw [dictSetText, if_neg (fun he => h.1 he.symm), ih h.2, List.cons_append]

/-- Helper: a dict without the key is unchanged by the text-score
update map. -/
theorem map_update_id (c : RetrievedChunk) (s : ℚ) :
    ∀ d : List (Nat × MergeEntry), c.chunk_id ∉ d.map Prod.fst →
      d.map (fun kv => if kv.1 = c.chunk_id
        then (kv.1, { kv.2 with text_score := s }) else kv) = d := by
  intro d
  induction d with
  | nil => intro _; rfl
  | cons a t ih =>
      intro h
      rw [List.map_cons, List.mem_cons] at h
      push_neg at h
      rw [List.map_cons, if_neg (fun he => h.1 he.symm), ih h.2]

/-- Helper: updating a present key (keys distinct) rewrites the dict
pointwise. -/
theorem dictSetText_present (c : RetrievedChunk) (s : ℚ) :
    ∀ d : List (Nat × MergeEntry), (d.map Prod.fst).Nodup →
      c.chunk_id ∈ d.map Prod.fst →
      dictSetText c s d = d.map (fun kv => if kv.1 = c.chunk_id
        then (kv.1, { kv.2 with text_score := s }) else kv) := by
  intro d
  induction d with
  | nil => intro _ h; exact absurd h (List.not_mem_nil _)
  | cons a t ih =>
      intro hnodup hmem
      obtain ⟨k', v'⟩ := a
      rw [List.map_cons, List.nodup_cons] at hnodup
      rw [List.map_cons, List.mem_cons] at hmem
      by_cases hk : k' = c.chunk_id
      · rw [dictSetText, if_pos hk, List.map_cons, if_pos hk,
          map_update_id c s t (by rw [← hk]; exact hnodup.1)]
      · rcases hmem with hmem | hmem
        · exact absurd hmem.symm hk
        · rw [dictSetText, if_neg hk, List.map_cons, if_neg hk,
            ih hnodup.2 hmem]

/-- Helper: one text-loop step preserves the merge invariant. -/
theorem dictSetText_inv (vr processed : List (RetrievedChunk × ℚ))
    (c : RetrievedChunk) (s : ℚ) (d : List (Nat × MergeEntry))
    (hinv : MergeInv vr processed d)
    (hcnew : c.chunk_id ∉ processed.map (fun p => p.1.chunk_id)) :
    MergeInv vr (processed ++ [(c, s)]) (dictSetText c s d) := by
  obtain ⟨hent, hcov, hkeys⟩ := hinv
  by_cases hpres : c.chunk_id ∈ d.map Prod.fst
  · rw [dictSetText_present c s d hkeys hpres]
    refine ⟨?_, ?_, ?_⟩
    · intro kv hkv
      rw [List.mem_map] at hkv
      obtain ⟨kv0, hkv0, hkve⟩ := hkv
      obtain ⟨hk0, hv0, ht0⟩ := hent kv0 hkv0
      by_cases hk : kv0.1 = c.chunk_id
      · rw [← hkve, if_pos hk]
        refine ⟨hk0, hv0, ?_⟩
        show s = lookupScore (processed ++ [(c, s)]) kv0.1
        rw [hk, (lookupScore_append_self (c, s) processed hcnew)]
      · rw [← hkve, if_neg hk]
        refine ⟨hk0, hv0, ?_⟩
        rw [ht0, lookupScore_append_ne (c, s) kv0.1 (fun he => hk he.symm)]
    · intro p hp
      have hmap : (d.map (fun kv => if kv.1 = c.chunk_id
          then (kv.1, { kv.2 with text_score := s }) else kv)).map Prod.fst =
          d.map Prod.fst := by
        rw [List.map_map]
        refine List.map_congr_left (fun kv _ => ?_)
        by_cases hk : kv.1 = c.chunk_id
        · rw [Function.comp_apply, if_pos hk]
        · rw [Function.comp_apply, if_neg hk]
      rw [hmap]
      exact hcov p hp
    · have hmap : (d.map (fun kv => if kv.1 = c.chunk_id
          then (kv.1, { kv.2 with text_score := s }) else kv)).map Prod.fst =
          d.map Prod.fst := by
        rw [List.map_map]
        refine List.map_congr_left (fun kv _ => ?_)
        by_cases hk : kv.1 = c.chunk_id
        · rw [Function.comp_apply, if_pos hk]
        · rw [Function.comp_apply, if_neg hk]
      rw [hmap]
      exact hkeys
  · rw [dictSetText_absent c s d hpres]
    refine ⟨?_, ?_, ?_⟩
    · intro kv hkv
      rw [List.mem_append] at hkv
      rcases hkv with hkv | hkv
      · obtain ⟨hk0, hv0, ht0⟩ := hent kv hkv
        refine ⟨hk0, hv0, ?_⟩
        have hk : kv.1 ≠ c.chunk_id := fun he => hpres (by
          rw [← he]
          exact List.mem_map_of_mem _ hkv)
        rw [ht0, lookupScore_append_ne (c, s) kv.1 (fun he => hk he.symm)]
      · rw [List.mem_singleton] at hkv
        subst hkv
        refine ⟨rfl, ?_, ?_⟩
        · show (0 : ℚ) = lookupScore vr c.chunk_id
          rw [lookupScore_not_mem c.chunk_id vr
            (fun hmem => hpres ?_)]
          rw [List.mem_map] at hmem
          obtain ⟨p, hp, hpe⟩ := hmem
          have := hcov p hp
          rw [hpe] at this
          exact this
        · show s = lookupScore (processed ++ [(c, s)]) c.chunk_id
          rw [lookupScore_append_self (c, s) processed hcnew]
    · intro p hp
      rw [List.map_append, List.mem_append]
      exact Or.inl (hcov p hp)
    · rw [List.map_append, List.map_singleton]
      rw [List.nodup_append]
      refine ⟨hkeys, List.nodup_singleton _, ?_⟩
      intro k hk hk2
      rw [List.mem_singleton] at hk2
      subst hk2
      exact hpres hk

/-- Helper: the text fold of `_merge_results` preserves the merge
invariant over the processed prefix. -/
theorem foldl_dictSetText_inv (vr : List (RetrievedChunk × ℚ)) :
    ∀ (tr' processed : List (RetrievedChunk × ℚ)) (d : List (Nat × MergeEntry)),
      MergeInv vr processed d →
      ((processed ++ tr').map (fun p => p.1.chunk_id)).Nodup →
      MergeInv vr (processed ++ tr')
        (tr'.foldl (fun d cs => dictSetText cs.1 cs.2 d) d) := by
  intro tr'
  induction tr' with
  | nil =>
      intro processed d hinv _
      rw [List.append_nil]
      exact hinv
  | cons c0 rest ih =>
      intro processed d hinv hnodup
      have hcnew : c0.1.chunk_id ∉ processed.map (fun p => p.1.chunk_id) := by
        rw [List.map_append, List.nodup_append] at hnodup
        intro hmem
        exact hnodup.2.2 hmem (List.mem_map_of_mem _ (List.mem_cons_self _ _))
      have hstep := dictSetText_inv vr processed c0.1 c0.2 d hinv hcnew
      have hres := ih (processed ++ [(c0.1, c0.2)]) _ hstep (by
        rw [List.append_assoc]
        simpa using hnodup)
      rw [List.foldl_cons]
      rw [List.append_assoc] at hres
      simpa using hres

/-- C8: with each chunk id appearing at most once per subquery result
list, every merged chunk's fused score is `vector_weight × dense score
+ text_weight × sparse score` (a missing side scoring 0), the merged
list is keyed by `chunk_id` and sorted descending by fused score, and
`retrieve` returns its first `top_k` entries. -/
theorem merge_results_linear_fusion :
    ∀ (vr tr : List (RetrievedChunk × ℚ)) (vector_weight text_weight : ℚ),
      (vr.map (fun p => p.1.chunk_id)).Nodup →
      (tr.map (fun p => p.1.chunk_id)).Nodup →
      (∀ c ∈ merge_results vr tr vector_weight text_weight,
          c.score = vector_weight * lookupScore vr c.chunk_id +
            text_weight * lookupScore tr c.chunk_id) ∧
      List.Sorted (fun a b : RetrievedChunk => b.score ≤ a.score)
        (merge_results vr tr vector_weight text_weight) ∧
      (∀ (st : Store) (u : Nat) (q : String) (ref : PyDateTime) (top_k : Nat)
          (ef : String → List ℚ) (dist : List ℚ → List ℚ → ℚ)
          (tm : String → String → Bool) (trk : String → String → ℚ)
          (tok : String → Bool),
          retrieve st u q ref top_k vector_weight text_weight ef dist tm trk tok =
            (merge_results
              (vector_search st u (ef (parse_time_expression q ref).1) (top_k * 3)
                (parse_time_expression q ref).2.1 (parse_time_expression q ref).2.2 dist)
              (fulltext_search st u (parse_time_expression q ref).1 (top_k * 3)
                (parse_time_expression q ref).2.1 (parse_time_expression q ref).2.2
                tm trk tok)
              vector_weight text_weight).take top_k) := by
  intro vr tr vw tw hvr htr
  refine ⟨?_, ?_, ?_⟩
  · intro c hc
    unfold merge_results at hc
    dsimp only at hc
    rw [List.mem_insertionSort, List.mem_map] at hc
    obtain ⟨kv, hkv, hceq⟩ := hc
    have hinv := foldl_dictSetText_inv vr tr []
      (vr.foldl (fun d cs => dictSet cs.1.chunk_id ⟨cs.1, cs.2, 0⟩ d) [])
      (mergeInv_base vr hvr) (by simpa using htr)
    rw [List.nil_append] at hinv
    obtain ⟨hkey, hvs, hts⟩ := hinv.1 kv hkv
    have hscore : c.score = kv.2.vector_score * vw + kv.2.text_score * tw := by
      rw [← hceq]
    have hcid : c.chunk_id = kv.1 := by
      rw [← hceq]
      exact hkey.symm
    rw [hscore, hcid, hvs, hts]
    ring
  · unfold merge_results
    dsimp only
    exact List.sorted_insertionSort _ _
  · intro st u q ref top_k ef dist tm trk tok
    rfl

unseal Rat.add Rat.mul Rat.sub Rat.inv in
/-- Witness for C8: two disjoint one-element result lists with distinct
chunk ids; the merged output is sorted descending by fused score. -/
theorem merge_results_linear_fusion_witness :
    List.Sorted (fun a b : RetrievedChunk => b.score ≤ a.score)
      (merge_results [(exChunkA, (1 : ℚ) / 2)] [(exChunkB, (1 : ℚ) / 4)]
        ((7 : ℚ) / 10) ((3 : ℚ) / 10)) :=
  (merge_results_linear_fusion [(exChunkA, (1 : ℚ) / 2)] [(exChunkB, (1 : ℚ) / 4)]
    ((7 : ℚ) / 10) ((3 : ℚ) / 10) (by decide) (by decide)).2.1

end SecondBrain
